import Mathlib

/-!
Verification development for the archetype core of the `evenio` ECS
(`src/archetype.rs`, `src/component.rs`).

The Rust data structures are shallowly embedded:
* `Slab<Archetype>` becomes a `List Archetype` (archetypes are never removed,
  so slab keys are dense and `vacant_key` is the length);
* `BTreeMap` / `BTreeSet` become association lists / lists (the code only
  relies on lookup, vacant-entry insertion and iteration);
* machine integers become `Nat` with the relevant bounds (`u32::MAX`,
  `usize::MAX`) as explicit constants;
* panics and debug-checked preconditions become `Except` / `Option` results;
* type-erased component values become a single `Nat` per element, which is
  enough to track the data movement performed by `move_entity`.

`BlobVec` (`blob_vec.rs`), the std `Vec` growth policy and the `SlotMap`
(`slot_map.rs`) are not part of the given sources; the definitions below that
model them say so in their doc comments and follow the specification text.
-/

/-- `u32::MAX`. -/
def u32Max : Nat := 4294967295

/-- `usize::MAX`. -/
def usizeMax : Nat := 18446744073709551615

/-- `EntityLocation`: archetype index and row of one entity. -/
structure EntityLoc where
  archetype : Nat
  row : Nat
deriving DecidableEq

/-- Lookup in an association list `ComponentIdx → ArchetypeIdx`
(the embedding of `BTreeMap` lookup / `entry` probing). -/
def lookupA (m : List (Nat × Nat)) (k : Nat) : Option Nat :=
  (m.find? (fun p => p.1 == k)).map (fun p => p.2)

/-- Insertion through a vacant `BTreeMap` entry: the key is known to be
absent, so appending a binding is an adequate embedding. -/
def insertA (m : List (Nat × Nat)) (k v : Nat) : List (Nat × Nat) :=
  m ++ [(k, v)]

/-- Lookup in the `by_components : BTreeMap<Box<[ComponentIdx]>, ArchetypeIdx>`
map, keyed by sorted component-index sequences. -/
def lookupBC (m : List (List Nat × Nat)) (k : List Nat) : Option Nat :=
  (m.find? (fun p => p.1 == k)).map (fun p => p.2)

/-- Modelled from the spec (§4.1 Column store): `blob_vec.rs` is not among the
given sources.  A `BlobVec` is a type-erased vector; we keep one abstract
`Nat` value per element, the element size, and the capacity.  Per the spec,
zero-sized elements have an effectively unbounded capacity (`usize::MAX`). -/
structure BlobVec where
  elemSize : Nat
  vals : List Nat
  cap : Nat
deriving DecidableEq

/-- Modelled from the spec: `new(layout, drop_fn)` is empty with zero
capacity; for zero-sized elements capacity is effectively unbounded. -/
def BlobVec.new (size : Nat) : BlobVec :=
  { elemSize := size, vals := [], cap := if size = 0 then usizeMax else 0 }

/-- Modelled from the spec: `push` grows if full; growth doubles capacity,
starting from at least 1. -/
def BlobVec.push (b : BlobVec) (v : Nat) : BlobVec :=
  { b with
    vals := b.vals ++ [v]
    cap := if b.vals.length = b.cap then (if b.cap = 0 then 1 else 2 * b.cap) else b.cap }

/-- `Vec::swap_remove` / `BlobVec::swap_remove` on the underlying list:
element `i` is overwritten by the last element, then the last slot is
dropped. -/
def swapRemoveL (l : List Nat) (i : Nat) : List Nat :=
  (l.set i (l.getLastD 0)).dropLast

/-- Modelled from the spec: `swap_remove(i)` drops element `i`, byte-copies
the last element over slot `i` and decrements the length. -/
def BlobVec.swapRemove (b : BlobVec) (i : Nat) : BlobVec :=
  { b with vals := swapRemoveL b.vals i }

/-- Modelled from the spec: `transfer_elem(&mut other, i)` byte-moves element
`i` into a new slot at the end of `other`, then swap-removes slot `i` from
`self` without running its drop.  Returns `(self, other)` afterwards. -/
def BlobVec.transferElem (b other : BlobVec) (i : Nat) : BlobVec × BlobVec :=
  (b.swapRemove i, other.push (b.vals.getD i 0))

/-- `Column`: component index together with its data (`archetype.rs`). -/
structure Column where
  component_idx : Nat
  data : BlobVec
deriving DecidableEq

/-- `ComponentInfo` restricted to the fields the embedded operations read:
the optional `TypeId` (as a `Nat`) and the layout size. -/
structure ComponentInfo where
  typeId : Option Nat
  size : Nat
deriving DecidableEq

/-- `Components`: the slot map of component infos (modelled from the spec as
an append-only dense list, since components are never removed) and the
`by_type_id` index. -/
structure Components where
  sm : List ComponentInfo
  by_type_id : List (Nat × Nat)
deriving DecidableEq

/-- `ComponentDescriptor` restricted to the fields `Components::add` uses for
control flow and registration. -/
structure ComponentDescriptor where
  typeId : Option Nat
  size : Nat
deriving DecidableEq

/-- `Components::add`: deduplicate by `TypeId` when present, otherwise insert
a fresh slot.  `.error` embeds the `panic!` on slot exhaustion; the slot
space bound is modelled from the spec (32-bit index space). -/
def Components.add (cs : Components) (desc : ComponentDescriptor) :
    Except Unit (Components × Nat × Bool) :=
  match desc.typeId with
  | some t =>
    match lookupA cs.by_type_id t with
    | some id => .ok (cs, id, false)
    | none =>
      if u32Max ≤ cs.sm.length then .error ()
      else
        .ok ({ sm := cs.sm ++ [⟨desc.typeId, desc.size⟩],
               by_type_id := insertA cs.by_type_id t cs.sm.length },
             cs.sm.length, true)
  | none =>
    if u32Max ≤ cs.sm.length then .error ()
    else
      .ok ({ cs with sm := cs.sm ++ [⟨desc.typeId, desc.size⟩] }, cs.sm.length, true)

/-- `Components::get_by_index`, reduced to the layout size (with the
debug-checked default for an invalid index). -/
def sizeOfIdx (cs : Components) (idx : Nat) : Nat :=
  ((cs.sm.get? idx).map (fun c => c.size)).getD 0

/-- `Archetype` (`archetype.rs`): index, entity ids (with the capacity of the
backing `Vec`), sorted columns, the two edge maps and the refresh listeners.
Event listeners are omitted: no verified property concerns them. -/
structure Archetype where
  index : Nat
  entity_ids : List Nat
  idsCap : Nat
  columns : List Column
  insert_components : List (Nat × Nat)
  remove_components : List (Nat × Nat)
  refresh_listeners : List Nat
deriving DecidableEq

/-- The component-index sequence of an archetype (its key in
`by_components`). -/
def colset (a : Archetype) : List Nat :=
  a.columns.map (fun c => c.component_idx)

/-- `Archetype::empty()`. -/
def Archetype.emptyArch : Archetype :=
  { index := 0, entity_ids := [], idsCap := 0, columns := [],
    insert_components := [], remove_components := [], refresh_listeners := [] }

/-- `Archetype::new(index, ids, comps)`: empty columns, one per component
index, each with the layout resolved through the registry.
`register_system` is run for every existing system; its matching predicate
lives in `system.rs` (not among the given sources), so it is abstracted as
the boolean parameter `matchesArch` (modelled from the spec §4.2). -/
def Archetype.mk' (cs : Components) (index : Nat) (ids : List Nat)
    (systems : List Nat) (matchesArch : Nat → List Nat → Bool) : Archetype :=
  { index := index, entity_ids := [], idsCap := 0,
    columns := ids.map (fun idx => ⟨idx, BlobVec.new (sizeOfIdx cs idx)⟩),
    insert_components := [], remove_components := [],
    refresh_listeners := systems.filter (fun s => matchesArch s ids) }

/-- `Archetypes`: the slab of archetypes (dense, append-only) and the
`by_components` index. -/
structure Archetypes where
  archetypes : List Archetype
  by_components : List (List Nat × Nat)
deriving DecidableEq

/-- `Archetypes::new()`: the empty archetype at index 0, with the empty
component sequence mapped to it. -/
def Archetypes.new : Archetypes :=
  { archetypes := [Archetype.emptyArch], by_components := [([], 0)] }

/-- Result contract of `slice::binary_search_by_key` on a slice sorted by the
key: `.ok i` when the key is at position `i`, `.error i` with the sorted
insertion position otherwise.  (Implemented as a linear scan, which realises
exactly that contract on sorted input.) -/
def searchSorted (l : List Nat) (c : Nat) : Except Nat Nat :=
  match l with
  | [] => .error 0
  | x :: xs =>
    if c < x then .error 0
    else if c = x then .ok 0
    else
      match searchSorted xs c with
      | .ok i => .ok (i + 1)
      | .error i => .error (i + 1)

/-- `Vec::insert(idx, c)` on the component-index sequence. -/
def insertAt (l : List Nat) (i : Nat) (c : Nat) : List Nat :=
  l.take i ++ c :: l.drop i

/-- Errors of the embedded fallible operations.  `tooManyArchetypes` and
`tooManyComponents` embed the corresponding `panic!` calls;
`invalidIndex` embeds the debug-checked preconditions (UB in release). -/
inductive CoreErr where
  | tooManyArchetypes
  | tooManyComponents
  | invalidIndex
deriving DecidableEq

/-- `Archetypes::traverse_insert` (`archetype.rs` lines 80–143). -/
def traverseInsert (w : Archetypes) (cs : Components) (systems : List Nat)
    (matchesArch : Nat → List Nat → Bool) (src_arch_idx component_idx : Nat) :
    Except CoreErr (Archetypes × Nat) :=
  let next_arch_idx := w.archetypes.length
  match w.archetypes.get? src_arch_idx with
  | none => .error .invalidIndex
  | some src_arch =>
    match lookupA src_arch.insert_components component_idx with
    | some dst => .ok (w, dst)
    | none =>
      match searchSorted (colset src_arch) component_idx with
      | .ok _ => .ok (w, src_arch_idx)
      | .error idx =>
        let new_components := insertAt (colset src_arch) idx component_idx
        match lookupBC w.by_components new_components with
        | some existing =>
          let src' := { src_arch with
            insert_components := insertA src_arch.insert_components component_idx existing }
          .ok ({ w with archetypes := w.archetypes.set src_arch_idx src' }, existing)
        | none =>
          if u32Max ≤ next_arch_idx then .error .tooManyArchetypes
          else
            let new_arch := { Archetype.mk' cs next_arch_idx new_components systems matchesArch with
              remove_components := [(component_idx, src_arch_idx)] }
            let src' := { src_arch with
              insert_components := insertA src_arch.insert_components component_idx next_arch_idx }
            .ok ({ archetypes := (w.archetypes.set src_arch_idx src') ++ [new_arch],
                   by_components := w.by_components ++ [(new_components, next_arch_idx)] },
                 next_arch_idx)

/-- `Archetypes::traverse_remove` (`archetype.rs` lines 147–216). -/
def traverseRemove (w : Archetypes) (cs : Components) (systems : List Nat)
    (matchesArch : Nat → List Nat → Bool) (src_arch_idx component_idx : Nat) :
    Except CoreErr (Archetypes × Nat) :=
  let next_arch_idx := w.archetypes.length
  match w.archetypes.get? src_arch_idx with
  | none => .error .invalidIndex
  | some src_arch =>
    match lookupA src_arch.remove_components component_idx with
    | some dst => .ok (w, dst)
    | none =>
      match searchSorted (colset src_arch) component_idx with
      | .error _ => .ok (w, src_arch_idx)
      | .ok _ =>
        let new_components := (colset src_arch).filter (fun x => x != component_idx)
        match lookupBC w.by_components new_components with
        | some existing =>
          let src' := { src_arch with
            remove_components := insertA src_arch.remove_components component_idx existing }
          .ok ({ w with archetypes := w.archetypes.set src_arch_idx src' }, existing)
        | none =>
          if u32Max ≤ next_arch_idx then .error .tooManyArchetypes
          else
            let new_arch := { Archetype.mk' cs next_arch_idx new_components systems matchesArch with
              insert_components := [(component_idx, src_arch_idx)] }
            let src' := { src_arch with
              remove_components := insertA src_arch.remove_components component_idx next_arch_idx }
            .ok ({ archetypes := (w.archetypes.set src_arch_idx src') ++ [new_arch],
                   by_components := w.by_components ++ [(new_components, next_arch_idx)] },
                 next_arch_idx)

/-- The four `RefreshArchetypeReason` values. -/
inductive Reason where
  | newArch
  | refreshPtrs
  | nonempty
  | empty
deriving DecidableEq

/-- One observable step of `move_entity`, in program order: a column
mutation, an entity-id vector mutation, an entity-index write, or a
`refresh_archetype` listener notification. -/
inductive MoveEvent where
  | colUpdate (arch comp : Nat)
  | idsUpdate (arch : Nat)
  | indexUpdate (entity : Nat)
  | notify (sys : Nat) (reason : Reason) (arch : Nat)
deriving DecidableEq

/-- Whether an event is a listener notification. -/
def MoveEvent.isNotify : MoveEvent → Bool
  | .notify _ _ _ => true
  | _ => false

/-- Whether an event is a `RefreshPointers` notification. -/
def MoveEvent.isRefreshNotify : MoveEvent → Bool
  | .notify _ .refreshPtrs _ => true
  | _ => false

/-- The two-finger merge loop of `move_entity` (`archetype.rs` lines
254–312), with an explicit fuel argument to keep the recursion structural
(every call site supplies enough fuel: the loop consumes at least one column
per step).  Returns the updated source columns, updated destination columns,
the unconsumed tail of `new_components`, and the column events in program
order.  `none` embeds the debug-checked exhaustion of the
`new_components` iterator. -/
def mergeLoopF (srcIdx dstIdx row : Nat) :
    Nat → List Column → List Column → List (Nat × Nat) →
    Option (List Column × List Column × List (Nat × Nat) × List MoveEvent)
  | _, [], [], nc => some ([], [], nc, [])
  | 0, _ :: _, _, _ => none
  | 0, _, _ :: _, _ => none
  | fuel + 1, s :: ss, [], nc =>
    match mergeLoopF srcIdx dstIdx row fuel ss [] nc with
    | none => none
    | some (s', d', rest, evs) =>
      some ({ s with data := s.data.swapRemove row } :: s', d', rest,
            .colUpdate srcIdx s.component_idx :: evs)
  | fuel + 1, [], d :: ds, nc =>
    match nc with
    | [] => none
    | (_, v) :: nc' =>
      match mergeLoopF srcIdx dstIdx row fuel [] ds nc' with
      | none => none
      | some (s', d', rest, evs) =>
        some (s', { d with data := d.data.push v } :: d', rest,
              .colUpdate dstIdx d.component_idx :: evs)
  | fuel + 1, s :: ss, d :: ds, nc =>
    if s.component_idx < d.component_idx then
      match mergeLoopF srcIdx dstIdx row fuel ss (d :: ds) nc with
      | none => none
      | some (s', d', rest, evs) =>
        some ({ s with data := s.data.swapRemove row } :: s', d', rest,
              .colUpdate srcIdx s.component_idx :: evs)
    else if s.component_idx = d.component_idx then
      match mergeLoopF srcIdx dstIdx row fuel ss ds nc with
      | none => none
      | some (s', d', rest, evs) =>
        some ({ s with data := (s.data.transferElem d.data row).1 } :: s',
              { d with data := (s.data.transferElem d.data row).2 } :: d', rest,
              .colUpdate srcIdx s.component_idx :: .colUpdate dstIdx d.component_idx :: evs)
    else
      match nc with
      | [] => none
      | (_, v) :: nc' =>
        match mergeLoopF srcIdx dstIdx row fuel (s :: ss) ds nc' with
        | none => none
        | some (s', d', rest, evs) =>
          some (s', { d with data := d.data.push v } :: d', rest,
                .colUpdate dstIdx d.component_idx :: evs)

/-- The merge loop with its fuel instantiated (sufficient by construction). -/
def mergeLoop (srcIdx dstIdx row : Nat) (srcCols dstCols : List Column)
    (nc : List (Nat × Nat)) :
    Option (List Column × List Column × List (Nat × Nat) × List MoveEvent) :=
  mergeLoopF srcIdx dstIdx row (srcCols.length + dstCols.length) srcCols dstCols nc

/-- The destination-reallocation flag of `move_entity` exactly as the code
computes it (`archetype.rs` lines 248–252): the FIRST column's
length-equals-capacity check, or the entity-id `Vec` at capacity. -/
def dstArchReallocated (da : Archetype) : Bool :=
  (match da.columns.head? with
   | some col => col.data.vals.length == col.data.cap
   | none => false)
  || da.idsCap == da.entity_ids.length

/-- Modelled from the spec (§4.3 step 2): the flag as the specification
states it — true iff ANY destination column's length equals its capacity, or
the entity-id vector is at capacity.  Kept separate from
`dstArchReallocated` (the code's computation) for comparison. -/
def specWillReallocateDst (da : Archetype) : Bool :=
  (da.columns.any (fun col => col.data.vals.length == col.data.cap))
  || da.idsCap == da.entity_ids.length

/-- Modelled from std: amortised growth of `Vec<EntityId>` on `push`
(doubling, minimum nonzero capacity 4 for 8-byte elements).  Only the
capacity value is affected; no verified property depends on the exact
schedule, since the code reads capacities only before mutating. -/
def vecPushCap (len cap : Nat) : Nat :=
  if len = cap then max 4 (2 * cap) else cap

/-- Update the location of entity `id` in the entity index
(`entities.get_mut(id) = loc`). -/
def setLoc (es : List (Nat × EntityLoc)) (id : Nat) (loc : EntityLoc) :
    List (Nat × EntityLoc) :=
  es.map (fun p => if p.1 = id then (p.1, loc) else p)

/-- Update only the row of entity `id` in the entity index
(`entities.get_mut(id).row = r`). -/
def setRow (es : List (Nat × EntityLoc)) (id : Nat) (r : Nat) :
    List (Nat × EntityLoc) :=
  es.map (fun p => if p.1 = id then (p.1, ⟨p.2.archetype, r⟩) else p)

/-- Entity-index lookup. -/
def lookupLoc (es : List (Nat × EntityLoc)) (id : Nat) : Option EntityLoc :=
  (es.find? (fun p => p.1 == id)).map (fun p => p.2)

/-- `Archetypes::move_entity` (`archetype.rs` lines 220–359).  Returns the
updated archetypes, the updated entity index, the destination row, and the
trace of mutations and notifications in program order.  `none` embeds the
`unwrap` / debug-checked panics (source and destination must be distinct
live archetypes and the source row must exist). -/
def moveEntity (w : Archetypes) (es : List (Nat × EntityLoc)) (src : EntityLoc)
    (dst : Nat) (nc : List (Nat × Nat)) :
    Option (Archetypes × List (Nat × EntityLoc) × Nat × List MoveEvent) :=
  if src.archetype = dst then some (w, es, src.row, [])
  else
    match w.archetypes.get? src.archetype, w.archetypes.get? dst with
    | some src_arch, some dst_arch =>
      let dst_row := dst_arch.entity_ids.length
      let dst_arch_reallocated := dstArchReallocated dst_arch
      match mergeLoop src.archetype dst src.row src_arch.columns dst_arch.columns nc with
      | none => none
      | some (srcCols, dstCols, _, colEvents) =>
        match src_arch.entity_ids.get? src.row with
        | none => none
        | some entity_id =>
          let srcIds := swapRemoveL src_arch.entity_ids src.row
          let dstIds := dst_arch.entity_ids ++ [entity_id]
          let es1 := setLoc es entity_id ⟨dst, dst_row⟩
          let swapped := srcIds.get? src.row
          let es2 := match swapped with
            | some sw => setRow es1 sw src.row
            | none => es1
          let swEvents : List MoveEvent := match swapped with
            | some sw => [.indexUpdate sw]
            | none => []
          let src' := { src_arch with entity_ids := srcIds, columns := srcCols }
          let dst' := { dst_arch with
            entity_ids := dstIds
            columns := dstCols
            idsCap := vecPushCap dst_arch.entity_ids.length dst_arch.idsCap }
          let w' := { w with
            archetypes := (w.archetypes.set src.archetype src').set dst dst' }
          let notifies : List MoveEvent :=
            (if srcIds.isEmpty then
              src_arch.refresh_listeners.map (fun s => .notify s .empty src.archetype)
             else [])
            ++ (if dst_arch_reallocated then
                  dst_arch.refresh_listeners.map (fun s => .notify s .refreshPtrs dst)
                else [])
            ++ (if dstIds.length = 1 then
                  dst_arch.refresh_listeners.map (fun s => .notify s .nonempty dst)
                else [])
          some (w', es2, dst_row,
                colEvents
                  ++ [.idsUpdate src.archetype, .idsUpdate dst, .indexUpdate entity_id]
                  ++ swEvents ++ notifies)
    | _, _ => none

/-- Every archetype's column list is strictly sorted by component index
(spec §3 invariant; established by construction in the code). -/
def SortedW (w : Archetypes) : Prop :=
  ∀ (i : Nat) a, w.archetypes[i]? = some a → (colset a).Pairwise (· < ·)

/-- Every `by_components` binding points at a live archetype with exactly
that component sequence. -/
def BcSound (w : Archetypes) : Prop :=
  ∀ key i, lookupBC w.by_components key = some i →
    ∃ a, w.archetypes[i]? = some a ∧ colset a = key

/-- Every live archetype is indexed in `by_components` under its component
sequence. -/
def BcComplete (w : Archetypes) : Prop :=
  ∀ (i : Nat) a, w.archetypes[i]? = some a → lookupBC w.by_components (colset a) = some i

/-- Insert-edge coherence: `insert_edges[c] = j` implies the destination's
component set is the source's with `c` added, and `c` is not in the
source's set. -/
def InsEdgesOk (w : Archetypes) : Prop :=
  ∀ (i : Nat) a, w.archetypes[i]? = some a → ∀ c j, lookupA a.insert_components c = some j →
    ∃ b, w.archetypes[j]? = some b ∧ c ∉ colset a ∧
      ∀ x, x ∈ colset b ↔ x ∈ colset a ∨ x = c

/-- Remove-edge coherence: `remove_edges[c] = j` implies the destination's
component set is the source's with `c` removed, and `c` is in the
source's set. -/
def RemEdgesOk (w : Archetypes) : Prop :=
  ∀ (i : Nat) a, w.archetypes[i]? = some a → ∀ c j, lookupA a.remove_components c = some j →
    ∃ b, w.archetypes[j]? = some b ∧ c ∈ colset a ∧
      ∀ x, x ∈ colset b ↔ x ∈ colset a ∧ x ≠ c

/-- The structural invariants of the archetype graph that hold between
operations. -/
def Wf (w : Archetypes) : Prop :=
  SortedW w ∧ BcSound w ∧ BcComplete w ∧ InsEdgesOk w ∧ RemEdgesOk w

/-- Storage-to-index consistency: every entity stored in an archetype row is
mapped by the entity index to exactly that location. -/
def Consistent (w : Archetypes) (es : List (Nat × EntityLoc)) : Prop :=
  ∀ (ai : Nat) a, w.archetypes[ai]? = some a →
    ∀ (i : Nat) id, a.entity_ids[i]? = some id → lookupLoc es id = some ⟨ai, i⟩

/-- Index-to-storage consistency (the spec's location round-trip): every
entry of the entity index leads to an archetype whose row at the recorded
index contains that entity. -/
def IndexValid (w : Archetypes) (es : List (Nat × EntityLoc)) : Prop :=
  ∀ p ∈ es, ∃ a, w.archetypes[p.2.archetype]? = some a ∧
    a.entity_ids[p.2.row]? = some p.1

/-- Executable check for `Consistent` (used to discharge hypotheses on
concrete states). -/
def consistentB (w : Archetypes) (es : List (Nat × EntityLoc)) : Bool :=
  (List.range w.archetypes.length).all (fun ai =>
    match w.archetypes.get? ai with
    | none => true
    | some a =>
      (List.range a.entity_ids.length).all (fun i =>
        match a.entity_ids.get? i with
        | none => true
        | some id => lookupLoc es id == some ⟨ai, i⟩))

/-- The empty archetype sits at index 0 with no columns and the empty
component sequence mapped to it. -/
def EmptyInv (w : Archetypes) : Prop :=
  (∃ a, w.archetypes[0]? = some a ∧ a.columns = [] ∧ a.index = 0) ∧
  lookupBC w.by_components [] = some 0

/-- Capacities of the columns of archetype `i` (projection used to observe
reallocation). -/
def colCapsAt (w : Archetypes) (i : Nat) : List Nat :=
  ((w.archetypes.get? i).map (fun a => a.columns.map (fun c => c.data.cap))).getD []

/-- A zero-size-element column holding one value: length 1, capacity
`usize::MAX` (unbounded per the spec), so never length-equals-capacity. -/
def zstCol : Column := ⟨0, ⟨0, [7], usizeMax⟩⟩

/-- A 4-byte column holding one value at capacity 1: the next push
reallocates. -/
def smallCol : Column := ⟨1, ⟨4, [7], 1⟩⟩

/-- Source archetype of the reallocation scenario: the empty-set archetype
holding entity 0. -/
def srcZ : Archetype :=
  { index := 0, entity_ids := [0], idsCap := 4, columns := [],
    insert_components := [], remove_components := [], refresh_listeners := [9] }

/-- Destination archetype of the reallocation scenario: a zero-sized first
column followed by a 4-byte column that is at capacity. -/
def dstZ : Archetype :=
  { index := 1, entity_ids := [1], idsCap := 4, columns := [zstCol, smallCol],
    insert_components := [], remove_components := [], refresh_listeners := [9] }

/-- World for the reallocation scenario. -/
def wZ : Archetypes := ⟨[srcZ, dstZ], [([], 0), ([0, 1], 1)]⟩

/-- Entity index for the reallocation scenario. -/
def esZ : List (Nat × EntityLoc) := [(0, ⟨0, 0⟩), (1, ⟨1, 0⟩)]

/-- An archetype that already contains component 3 and has no cached edges. -/
def archC4 : Archetype :=
  { index := 0, entity_ids := [], idsCap := 0, columns := [⟨3, BlobVec.new 4⟩],
    insert_components := [], remove_components := [], refresh_listeners := [] }

/-- World containing only `archC4`. -/
def wC4 : Archetypes := ⟨[archC4], [([3], 0)]⟩

/-- A registry with one 4-byte component of type id 100. -/
def cs1 : Components := ⟨[⟨some 100, 4⟩], []⟩

/-- Archetype `{0}` holding entities 10 and 11 (swap-patch scenario). -/
def archA : Archetype :=
  { index := 1, entity_ids := [10, 11], idsCap := 4, columns := [⟨0, ⟨4, [5, 6], 2⟩⟩],
    insert_components := [], remove_components := [], refresh_listeners := [3] }

/-- The empty archetype of the swap-patch scenario. -/
def archB : Archetype :=
  { index := 0, entity_ids := [], idsCap := 0, columns := [],
    insert_components := [], remove_components := [], refresh_listeners := [4] }

/-- World for the swap-patch scenario. -/
def wS : Archetypes := ⟨[archB, archA], [([], 0), ([0], 1)]⟩

/-- Entity index for the swap-patch scenario. -/
def esS : List (Nat × EntityLoc) := [(10, ⟨1, 0⟩), (11, ⟨1, 1⟩)]

theorem lookupA_nil (k : Nat) : lookupA [] k = none := rfl

theorem lookupA_insertA_self {m : List (Nat × Nat)} {k : Nat} (v : Nat)
    (h : lookupA m k = none) : lookupA (insertA m k v) k = some v := by
  unfold lookupA insertA
  unfold lookupA at h
  rw [List.find?_append]
  cases hf : m.find? (fun p => p.1 == k) with
  | none => simp [List.find?]
  | some p => rw [hf] at h; simp at h

theorem searchSorted_ok_mem {l : List Nat} {c i : Nat}
    (h : searchSorted l c = .ok i) : c ∈ l := by
  induction l generalizing i with
  | nil => simp [searchSorted] at h
  | cons x xs ih =>
    by_cases h1 : c < x
    · simp [searchSorted, h1] at h
    · by_cases h2 : c = x
      · exact h2 ▸ List.mem_cons_self x xs
      · rw [searchSorted] at h
        simp only [if_neg h1, if_neg h2] at h
        cases hrec : searchSorted xs c with
        | ok j => exact List.mem_cons_of_mem _ (ih hrec)
        | error j => rw [hrec] at h; cases h

theorem searchSorted_ok_of_mem {l : List Nat} {c : Nat}
    (hs : l.Pairwise (· < ·)) (hm : c ∈ l) : ∃ i, searchSorted l c = .ok i := by
  induction l with
  | nil => cases hm
  | cons x xs ih =>
    rcases List.mem_cons.mp hm with h | h
    · exact ⟨0, by simp [searchSorted, h]⟩
    · have hx : x < c := (List.pairwise_cons.mp hs).1 c h
      obtain ⟨i, hi⟩ := ih (List.pairwise_cons.mp hs).2 h
      refine ⟨i + 1, ?_⟩
      rw [searchSorted]
      simp only [if_neg (Nat.lt_asymm hx), if_neg (Nat.ne_of_gt hx), hi]

theorem searchSorted_err_not_mem {l : List Nat} {c i : Nat}
    (hs : l.Pairwise (· < ·)) (h : searchSorted l c = .error i) : c ∉ l := by
  intro hm
  obtain ⟨j, hj⟩ := searchSorted_ok_of_mem hs hm
  rw [hj] at h
  cases h

theorem searchSorted_err_of_not_mem {l : List Nat} {c : Nat} (hm : c ∉ l) :
    ∃ i, searchSorted l c = .error i := by
  cases h : searchSorted l c with
  | ok j => exact absurd (searchSorted_ok_mem h) hm
  | error j => exact ⟨j, rfl⟩

theorem searchSorted_err_bounds {l : List Nat} {c i : Nat}
    (hs : l.Pairwise (· < ·)) (h : searchSorted l c = .error i) :
    (∀ x ∈ l.take i, x < c) ∧ ∀ x ∈ l.drop i, c < x := by
  induction l generalizing i with
  | nil =>
    refine ⟨?_, ?_⟩ <;> intro x hx <;> simp at hx
  | cons y ys ih =>
    by_cases h1 : c < y
    · rw [searchSorted, if_pos h1] at h
      cases h
      refine ⟨by simp, ?_⟩
      intro x hx
      rcases List.mem_cons.mp hx with rfl | hx
      · exact h1
      · exact lt_trans h1 ((List.pairwise_cons.mp hs).1 x hx)
    · by_cases h2 : c = y
      · rw [searchSorted, if_neg h1, if_pos h2] at h
        cases h
      · rw [searchSorted] at h
        simp only [if_neg h1, if_neg h2] at h
        cases hrec : searchSorted ys c with
        | ok j => rw [hrec] at h; cases h
        | error j =>
          rw [hrec] at h
          cases h
          have hy : y < c := Nat.lt_of_le_of_ne (Nat.le_of_not_lt h1) (Ne.symm h2)
          obtain ⟨ha, hb⟩ := ih (List.pairwise_cons.mp hs).2 hrec
          refine ⟨?_, ?_⟩
          · intro x hx
            rw [List.take_succ_cons] at hx
            rcases List.mem_cons.mp hx with rfl | hx
            · exact hy
            · exact ha x hx
          · intro x hx
            rw [List.drop_succ_cons] at hx
            exact hb x hx

theorem mem_insertAt {l : List Nat} {i c x : Nat} :
    x ∈ insertAt l i c ↔ x = c ∨ x ∈ l := by
  unfold insertAt
  constructor
  · intro h
    rcases List.mem_append.mp h with h | h
    · exact Or.inr (List.take_subset i l h)
    · rcases List.mem_cons.mp h with h | h
      · exact Or.inl h
      · exact Or.inr (List.drop_subset i l h)
  · intro h
    rcases h with h | h
    · exact List.mem_append.mpr (Or.inr (List.mem_cons.mpr (Or.inl h)))
    · rw [← List.take_append_drop i l] at h
      rcases List.mem_append.mp h with h | h
      · exact List.mem_append.mpr (Or.inl h)
      · exact List.mem_append.mpr (Or.inr (List.mem_cons.mpr (Or.inr h)))

theorem insertAt_sorted {l : List Nat} {i c : Nat} (hs : l.Pairwise (· < ·))
    (h1 : ∀ x ∈ l.take i, x < c) (h2 : ∀ x ∈ l.drop i, c < x) :
    (insertAt l i c).Pairwise (· < ·) := by
  unfold insertAt
  rw [List.pairwise_append]
  refine ⟨hs.sublist (List.take_sublist i l), ?_, ?_⟩
  · rw [List.pairwise_cons]
    exact ⟨h2, hs.sublist (List.drop_sublist i l)⟩
  · intro a ha b hb
    rcases List.mem_cons.mp hb with rfl | hb
    · exact h1 a ha
    · exact lt_trans (h1 a ha) (h2 b hb)

/-- C7: `move_entity` with `src.archetype == dst` is a complete no-op: it
returns the original row, and leaves the archetypes (columns and entity-id
vectors) and the entity index unchanged, with an empty event trace (no
notification). -/
theorem moveEntity_noop (w : Archetypes) (es : List (Nat × EntityLoc))
    (src : EntityLoc) (dst : Nat) (nc : List (Nat × Nat))
    (h : src.archetype = dst) :
    moveEntity w es src dst nc = some (w, es, src.row, []) := by
  simp [moveEntity, h]

/-- Witness for C7 at a concrete no-op move. -/
theorem moveEntity_noop_witness :
    (⟨1, 5⟩ : EntityLoc).archetype = 1 ∧
    moveEntity wS esS ⟨1, 5⟩ 1 [] = some (wS, esS, 5, []) :=
  ⟨rfl, moveEntity_noop wS esS ⟨1, 5⟩ 1 [] rfl⟩

/-- C4 counterexample: `traverse_insert` on an archetype that already
contains the component (and symmetrically `traverse_remove` on one that
lacks it) returns the source index but caches NO self-edge: the returned
state is the unchanged input state, whose edge maps have no binding for the
component.  The claim asserts a self-edge is cached. -/
theorem traverse_selfloop_counterexample :
    traverseInsert wC4 cs1 [] (fun _ _ => false) 0 3 = .ok (wC4, 0) ∧
    wC4.archetypes[0]? = some archC4 ∧
    lookupA archC4.insert_components 3 = none ∧
    traverseRemove wC4 cs1 [] (fun _ _ => false) 0 7 = .ok (wC4, 0) ∧
    lookupA archC4.remove_components 7 = none :=
  ⟨rfl, rfl, rfl, rfl, rfl⟩

/-- C4 (amended): when `traverse_insert` is called with a component the
source archetype already contains and no edge is cached for it, it returns
the source archetype index and leaves the state unchanged — no self-edge is
cached; symmetrically for `traverse_remove` with a component the source
does not contain. -/
theorem traverse_selfloop_uncached :
    (∀ (w : Archetypes) (cs : Components) (sys : List Nat)
       (m : Nat → List Nat → Bool) (src c : Nat) (sa : Archetype),
       w.archetypes[src]? = some sa →
       lookupA sa.insert_components c = none →
       (colset sa).Pairwise (· < ·) → c ∈ colset sa →
       traverseInsert w cs sys m src c = .ok (w, src)) ∧
    (∀ (w : Archetypes) (cs : Components) (sys : List Nat)
       (m : Nat → List Nat → Bool) (src c : Nat) (sa : Archetype),
       w.archetypes[src]? = some sa →
       lookupA sa.remove_components c = none →
       c ∉ colset sa →
       traverseRemove w cs sys m src c = .ok (w, src)) := by
  constructor
  · intro w cs sys m src c sa hsa hedge hsorted hmem
    obtain ⟨i, hok⟩ := searchSorted_ok_of_mem hsorted hmem
    simp [traverseInsert, hsa, hedge, hok]
  · intro w cs sys m src c sa hsa hedge hmem
    obtain ⟨i, herr⟩ := searchSorted_err_of_not_mem hmem
    simp [traverseRemove, hsa, hedge, herr]

/-- Witness for C4's amended theorem at concrete inputs. -/
theorem traverse_selfloop_uncached_witness :
    (wC4.archetypes[0]? = some archC4 ∧
     lookupA archC4.insert_components 3 = none ∧
     (colset archC4).Pairwise (· < ·) ∧ 3 ∈ colset archC4 ∧
     traverseInsert wC4 cs1 [] (fun _ _ => false) 0 3 = .ok (wC4, 0)) ∧
    (lookupA archC4.remove_components 7 = none ∧ 7 ∉ colset archC4 ∧
     traverseRemove wC4 cs1 [] (fun _ _ => false) 0 7 = .ok (wC4, 0)) :=
  ⟨⟨rfl, rfl, by decide, by decide,
    traverse_selfloop_uncached.1 wC4 cs1 [] (fun _ _ => false) 0 3 archC4
      rfl rfl (by decide) (by decide)⟩,
   ⟨rfl, by decide,
    traverse_selfloop_uncached.2 wC4 cs1 [] (fun _ _ => false) 0 7 archC4
      rfl rfl (by decide)⟩⟩

/-- C9: `Components::add` deduplicates by type identity.  A descriptor whose
`type_id` is present and already registered yields the existing id,
`inserted = false`, and an unchanged registry; otherwise a fresh slot is
allocated at the next dense index (which determines the `ComponentIdx`) and
`inserted = true`. -/
theorem components_add_dedup :
    (∀ (cs : Components) (desc : ComponentDescriptor) (t id : Nat),
       desc.typeId = some t → lookupA cs.by_type_id t = some id →
       Components.add cs desc = .ok (cs, id, false)) ∧
    (∀ (cs : Components) (desc : ComponentDescriptor),
       (desc.typeId = none ∨ ∃ t, desc.typeId = some t ∧ lookupA cs.by_type_id t = none) →
       cs.sm.length < u32Max →
       ∃ cs', Components.add cs desc = .ok (cs', cs.sm.length, true) ∧
         cs'.sm.length = cs.sm.length + 1 ∧
         cs'.sm[cs.sm.length]? = some ⟨desc.typeId, desc.size⟩) := by
  constructor
  · intro cs desc t id ht hid
    simp [Components.add, ht, hid]
  · intro cs desc h hlen
    rcases h with h | ⟨t, ht, hnone⟩
    · refine ⟨{ cs with sm := cs.sm ++ [⟨desc.typeId, desc.size⟩] }, ?_, by simp, ?_⟩
      · simp [Components.add, h, Nat.not_le.mpr hlen]
      · simp
    · refine ⟨⟨cs.sm ++ [⟨desc.typeId, desc.size⟩],
               insertA cs.by_type_id t cs.sm.length⟩, ?_, by simp, ?_⟩
      · simp [Components.add, ht, hnone, Nat.not_le.mpr hlen]
      · simp

/-- Witness for C9 at a concrete registry: re-adding type 100 is a no-op
returning the existing id; adding unknown type 200 allocates slot 1. -/
theorem components_add_dedup_witness :
    Components.add ⟨[⟨some 100, 4⟩], [(100, 0)]⟩ ⟨some 100, 8⟩ =
      .ok (⟨[⟨some 100, 4⟩], [(100, 0)]⟩, 0, false) ∧
    ∃ cs', Components.add ⟨[⟨some 100, 4⟩], [(100, 0)]⟩ ⟨some 200, 8⟩ =
        .ok (cs', 1, true) ∧ cs'.sm.length = 2 ∧ cs'.sm[1]? = some ⟨some 200, 8⟩ :=
  ⟨components_add_dedup.1 ⟨[⟨some 100, 4⟩], [(100, 0)]⟩ ⟨some 100, 8⟩ 100 0 rfl rfl,
   components_add_dedup.2 ⟨[⟨some 100, 4⟩], [(100, 0)]⟩ ⟨some 200, 8⟩
     (Or.inr ⟨200, rfl, rfl⟩) (by decide)⟩

theorem lookupA_append_of_some {m l2 : List (Nat × Nat)} {k i : Nat}
    (h : lookupA m k = some i) : lookupA (m ++ l2) k = some i := by
  unfold lookupA at *
  rw [List.find?_append]
  cases hf : m.find? (fun p => p.1 == k) with
  | none => rw [hf] at h; cases h
  | some p => rw [hf] at h; simpa using h

theorem lookupA_singleton {k v c j : Nat}
    (h : lookupA [(k, v)] c = some j) : c = k ∧ j = v := by
  unfold lookupA at h
  by_cases hc : k = c
  · subst hc
    simp [List.find?] at h
    exact ⟨rfl, h.symm⟩
  · have hb : (k == c) = false := beq_eq_false_iff_ne.mpr hc
    simp [List.find?, hb] at h

theorem lookupA_singleton_self (k v : Nat) : lookupA [(k, v)] k = some v := by
  simp [lookupA, List.find?]

theorem lookupA_insertA_cases {m : List (Nat × Nat)} {k v c j : Nat}
    (h : lookupA (insertA m k v) c = some j) :
    lookupA m c = some j ∨ (c = k ∧ lookupA m c = none ∧ j = v) := by
  unfold lookupA insertA at *
  rw [List.find?_append] at h
  cases hf : m.find? (fun p => p.1 == c) with
  | some p => rw [hf] at h; left; simpa using h
  | none =>
    rw [hf] at h
    right
    by_cases hc : k = c
    · subst hc
      simp [List.find?] at h
      exact ⟨rfl, rfl, h.symm⟩
    · have hb : (k == c) = false := beq_eq_false_iff_ne.mpr hc
      simp [List.find?, hb] at h

theorem lookupBC_append_of_some {m l2 : List (List Nat × Nat)} {k : List Nat} {i : Nat}
    (h : lookupBC m k = some i) : lookupBC (m ++ l2) k = some i := by
  unfold lookupBC at *
  rw [List.find?_append]
  cases hf : m.find? (fun p => p.1 == k) with
  | none => rw [hf] at h; cases h
  | some p => rw [hf] at h; simpa using h

theorem lookupBC_append_self {m : List (List Nat × Nat)} {k : List Nat} {v : Nat}
    (h : lookupBC m k = none) : lookupBC (m ++ [(k, v)]) k = some v := by
  unfold lookupBC at *
  rw [List.find?_append]
  cases hf : m.find? (fun p => p.1 == k) with
  | none => simp [List.find?]
  | some p => rw [hf] at h; simp at h

theorem lookupBC_append_cases {m : List (List Nat × Nat)} {k0 k : List Nat} {v j : Nat}
    (h : lookupBC (m ++ [(k0, v)]) k = some j) :
    lookupBC m k = some j ∨ (k = k0 ∧ lookupBC m k = none ∧ j = v) := by
  unfold lookupBC at *
  rw [List.find?_append] at h
  cases hf : m.find? (fun p => p.1 == k) with
  | some p => rw [hf] at h; left; simpa using h
  | none =>
    rw [hf] at h
    right
    by_cases hc : k0 = k
    · subst hc
      simp [List.find?] at h
      exact ⟨rfl, rfl, h.symm⟩
    · have hb : (k0 == k) = false := beq_eq_false_iff_ne.mpr hc
      simp [List.find?, hb] at h

theorem swapRemoveL_length {l : List Nat} {i : Nat} :
    (swapRemoveL l i).length = l.length - 1 := by
  simp [swapRemoveL]

theorem swapRemoveL_getElem? {l : List Nat} {i j : Nat} :
    (swapRemoveL l i)[j]? =
      if j < l.length - 1 then (if i = j then l[l.length - 1]? else l[j]?) else none := by
  unfold swapRemoveL
  rw [List.dropLast_eq_take, List.length_set, List.getElem?_take, List.getElem?_set]
  by_cases hj : j < l.length - 1
  · simp only [if_pos hj]
    by_cases hij : i = j
    · subst hij
      have hi : i < l.length := lt_of_lt_of_le hj (Nat.sub_le _ _)
      simp only [if_pos rfl, if_pos hi]
      have hne : l ≠ [] := by
        intro hnil
        subst hnil
        simp at hj
      rw [← List.getLast?_eq_getElem?, List.getLastD_eq_getLast?]
      cases hL : l.getLast? with
      | none => exact absurd (List.getLast?_eq_none_iff.mp hL) hne
      | some x => simp
    · simp [hij]
  · simp [hj]

theorem colset_mk' (cs : Components) (index : Nat) (ids : List Nat)
    (systems : List Nat) (m : Nat → List Nat → Bool) :
    colset (Archetype.mk' cs index ids systems m) = ids := by
  simp [colset, Archetype.mk', List.map_map]
  exact List.map_id ids

theorem setGet_self {α : Type} {l : List α} {s : Nat} {x : α} (h : s < l.length) :
    (l.set s x)[s]? = some x := by
  rw [List.getElem?_set]
  simp [h]

theorem setGet_other {α : Type} {l : List α} {s i : Nat} {x : α} (h : s ≠ i) :
    (l.set s x)[i]? = l[i]? := by
  rw [List.getElem?_set, if_neg h]

theorem getElem?_set_cases {α : Type} {l : List α} {s : Nat} {x a : α} {i : Nat}
    (h : (l.set s x)[i]? = some a) :
    (s = i ∧ s < l.length ∧ a = x) ∨ (s ≠ i ∧ l[i]? = some a) := by
  rw [List.getElem?_set] at h
  by_cases hsi : s = i
  · subst hsi
    rw [if_pos rfl] at h
    by_cases hlt : s < l.length
    · rw [if_pos hlt] at h
      injection h with h2
      exact Or.inl ⟨rfl, hlt, h2.symm⟩
    · rw [if_neg hlt] at h
      cases h
  · rw [if_neg hsi] at h
    exact Or.inr ⟨hsi, h⟩

theorem getElem?_set_append_cases {α : Type} {l : List α} {s : Nat} {x na a : α} {i : Nat}
    (h : ((l.set s x) ++ [na])[i]? = some a) :
    (i = l.length ∧ a = na) ∨ (s = i ∧ s < l.length ∧ a = x) ∨ (s ≠ i ∧ l[i]? = some a) := by
  rw [List.getElem?_append, List.length_set] at h
  by_cases hi : i < l.length
  · rw [if_pos hi] at h
    rcases getElem?_set_cases h with h1 | h2
    · exact Or.inr (Or.inl h1)
    · exact Or.inr (Or.inr h2)
  · rw [if_neg hi] at h
    have hle : l.length ≤ i := Nat.le_of_not_lt hi
    cases hk : i - l.length with
    | zero =>
      rw [hk] at h
      injection h with h2
      exact Or.inl ⟨Nat.le_antisymm (Nat.sub_eq_zero_iff_le.mp hk) hle, h2.symm⟩
    | succ n =>
      rw [hk] at h
      simp at h

theorem relocate_set {l : List Archetype} {src : Nat} {sa src' : Archetype}
    (hsa : l[src]? = some sa) (hcs : colset src' = colset sa)
    {j : Nat} {b : Archetype} (hb : l[j]? = some b) :
    ∃ b', (l.set src src')[j]? = some b' ∧ colset b' = colset b := by
  by_cases hj : src = j
  · subst hj
    have hlt : src < l.length := (List.getElem?_eq_some.mp hsa).1
    have hba : b = sa := by
      rw [hb] at hsa
      exact Option.some_inj.mp hsa
    exact ⟨src', setGet_self hlt, by rw [hcs, hba]⟩
  · exact ⟨b, by rw [setGet_other hj]; exact hb, rfl⟩

theorem relocate_set_append {l : List Archetype} {src : Nat} {sa src' na : Archetype}
    (hsa : l[src]? = some sa) (hcs : colset src' = colset sa)
    {j : Nat} {b : Archetype} (hb : l[j]? = some b) :
    ∃ b', ((l.set src src') ++ [na])[j]? = some b' ∧ colset b' = colset b := by
  obtain ⟨b', hb', hc⟩ := relocate_set hsa hcs hb
  refine ⟨b', ?_, hc⟩
  have hjlt : j < l.length := (List.getElem?_eq_some.mp hb).1
  rw [List.getElem?_append, List.length_set, if_pos hjlt]
  exact hb'

theorem colset_with_ins (sa : Archetype) (X : List (Nat × Nat)) :
    colset { sa with insert_components := X } = colset sa := rfl

theorem colset_with_rem (sa : Archetype) (X : List (Nat × Nat)) :
    colset { sa with remove_components := X } = colset sa := rfl

theorem setAppendGet_last {l : List Archetype} {s : Nat} {x na : Archetype} :
    ((l.set s x) ++ [na])[l.length]? = some na := by
  have h := List.getElem?_concat_length (l.set s x) na
  rwa [List.length_set] at h

theorem setAppendGet_left {l : List Archetype} {s j : Nat} {x na : Archetype}
    (h : j < l.length) : ((l.set s x) ++ [na])[j]? = (l.set s x)[j]? := by
  rw [List.getElem?_append, List.length_set, if_pos h]

theorem wf_base_set {w : Archetypes} {src : Nat} {sa src' : Archetype}
    (hsa : w.archetypes[src]? = some sa)
    (hsort : SortedW w) (hbcs : BcSound w) (hbcc : BcComplete w)
    (hcs : colset src' = colset sa) :
    SortedW ⟨w.archetypes.set src src', w.by_components⟩ ∧
    BcSound ⟨w.archetypes.set src src', w.by_components⟩ ∧
    BcComplete ⟨w.archetypes.set src src', w.by_components⟩ := by
  refine ⟨?_, ?_, ?_⟩
  · intro i a hia
    rcases getElem?_set_cases hia with ⟨rfl, hlt, rfl⟩ | ⟨hne, hold⟩
    · rw [hcs]
      exact hsort src sa hsa
    · exact hsort i a hold
  · intro key0 i hk
    obtain ⟨b, hb, hcolb⟩ := hbcs key0 i hk
    obtain ⟨b', hb', hcb'⟩ := relocate_set hsa hcs hb
    exact ⟨b', hb', by rw [hcb', hcolb]⟩
  · intro i a hia
    rcases getElem?_set_cases hia with ⟨rfl, hlt, rfl⟩ | ⟨hne, hold⟩
    · rw [hcs]
      exact hbcc src sa hsa
    · exact hbcc i a hold

theorem wf_base_create {w : Archetypes} {src : Nat} {sa src' na : Archetype} {key : List Nat}
    (hsa : w.archetypes[src]? = some sa)
    (hsort : SortedW w) (hbcs : BcSound w) (hbcc : BcComplete w)
    (hcs : colset src' = colset sa)
    (hkey : colset na = key)
    (hkeysorted : key.Pairwise (· < ·))
    (hbcnone : lookupBC w.by_components key = none) :
    SortedW ⟨(w.archetypes.set src src') ++ [na], w.by_components ++ [(key, w.archetypes.length)]⟩ ∧
    BcSound ⟨(w.archetypes.set src src') ++ [na], w.by_components ++ [(key, w.archetypes.length)]⟩ ∧
    BcComplete ⟨(w.archetypes.set src src') ++ [na], w.by_components ++ [(key, w.archetypes.length)]⟩ := by
  refine ⟨?_, ?_, ?_⟩
  · intro i a hia
    rcases getElem?_set_append_cases hia with ⟨rfl, rfl⟩ | ⟨rfl, hlt, rfl⟩ | ⟨hne, hold⟩
    · rw [hkey]
      exact hkeysorted
    · rw [hcs]
      exact hsort src sa hsa
    · exact hsort i a hold
  · intro key0 i hk
    rcases lookupBC_append_cases hk with hOld | ⟨rfl, hnone, rfl⟩
    · obtain ⟨b, hb, hcolb⟩ := hbcs key0 i hOld
      obtain ⟨b', hb', hcb'⟩ := relocate_set_append hsa hcs hb
      exact ⟨b', hb', by rw [hcb', hcolb]⟩
    · exact ⟨na, setAppendGet_last, hkey⟩
  · intro i a hia
    rcases getElem?_set_append_cases hia with ⟨rfl, rfl⟩ | ⟨rfl, hlt, rfl⟩ | ⟨hne, hold⟩
    · rw [hkey]
      exact lookupBC_append_self hbcnone
    · rw [hcs]
      exact lookupBC_append_of_some (hbcc src sa hsa)
    · exact lookupBC_append_of_some (hbcc i a hold)

theorem edges_cache_ins {w : Archetypes} {bc' : List (List Nat × Nat)}
    {src c ex : Nat} {sa src' b : Archetype}
    (hsa : w.archetypes[src]? = some sa)
    (hins : InsEdgesOk w) (hrem : RemEdgesOk w)
    (hcs : colset src' = colset sa)
    (hic : src'.insert_components = insertA sa.insert_components c ex)
    (hrc : src'.remove_components = sa.remove_components)
    (hbex : w.archetypes[ex]? = some b)
    (hbiff : ∀ x, x ∈ colset b ↔ x ∈ colset sa ∨ x = c)
    (hnotmem : c ∉ colset sa) :
    InsEdgesOk ⟨w.archetypes.set src src', bc'⟩ ∧
    RemEdgesOk ⟨w.archetypes.set src src', bc'⟩ := by
  constructor
  · intro i a hia c' j hcj
    rcases getElem?_set_cases hia with ⟨rfl, hlt, rfl⟩ | ⟨hne, hold⟩
    · rw [hic] at hcj
      rcases lookupA_insertA_cases hcj with hOld | ⟨rfl, hnone, rfl⟩
      · obtain ⟨b0, hbj, hnc, hiff⟩ := hins src sa hsa c' j hOld
        obtain ⟨b', hb', hcb'⟩ := relocate_set hsa hcs hbj
        refine ⟨b', hb', ?_, ?_⟩
        · rw [hcs]
          exact hnc
        · intro x
          rw [hcb', hcs]
          exact hiff x
      · obtain ⟨b', hb', hcb'⟩ := relocate_set hsa hcs hbex
        refine ⟨b', hb', ?_, ?_⟩
        · rw [hcs]
          exact hnotmem
        · intro x
          rw [hcb', hcs]
          exact hbiff x
    · obtain ⟨b0, hbj, hnc, hiff⟩ := hins i a hold c' j hcj
      obtain ⟨b', hb', hcb'⟩ := relocate_set hsa hcs hbj
      refine ⟨b', hb', hnc, ?_⟩
      intro x
      rw [hcb']
      exact hiff x
  · intro i a hia c' j hcj
    rcases getElem?_set_cases hia with ⟨rfl, hlt, rfl⟩ | ⟨hne, hold⟩
    · rw [hrc] at hcj
      obtain ⟨b0, hbj, hcm, hiff⟩ := hrem src sa hsa c' j hcj
      obtain ⟨b', hb', hcb'⟩ := relocate_set hsa hcs hbj
      refine ⟨b', hb', ?_, ?_⟩
      · rw [hcs]
        exact hcm
      · intro x
        rw [hcb', hcs]
        exact hiff x
    · obtain ⟨b0, hbj, hcm, hiff⟩ := hrem i a hold c' j hcj
      obtain ⟨b', hb', hcb'⟩ := relocate_set hsa hcs hbj
      exact ⟨b', hb', hcm, fun x => by rw [hcb']; exact hiff x⟩

theorem edges_create_ins {w : Archetypes} {bc' : List (List Nat × Nat)}
    {src c : Nat} {sa src' na : Archetype}
    (hsa : w.archetypes[src]? = some sa)
    (hins : InsEdgesOk w) (hrem : RemEdgesOk w)
    (hcs : colset src' = colset sa)
    (hic : src'.insert_components = insertA sa.insert_components c w.archetypes.length)
    (hrc : src'.remove_components = sa.remove_components)
    (hnaiff : ∀ x, x ∈ colset na ↔ x ∈ colset sa ∨ x = c)
    (hnaic : na.insert_components = [])
    (hnarc : na.remove_components = [(c, src)])
    (hnotmem : c ∉ colset sa) :
    InsEdgesOk ⟨(w.archetypes.set src src') ++ [na], bc'⟩ ∧
    RemEdgesOk ⟨(w.archetypes.set src src') ++ [na], bc'⟩ := by
  have hsrclt : src < w.archetypes.length := (List.getElem?_eq_some.mp hsa).1
  constructor
  · intro i a hia c' j hcj
    rcases getElem?_set_append_cases hia with ⟨rfl, rfl⟩ | ⟨rfl, hlt, rfl⟩ | ⟨hne, hold⟩
    · rw [hnaic] at hcj
      simp [lookupA] at hcj
    · rw [hic] at hcj
      rcases lookupA_insertA_cases hcj with hOld | ⟨rfl, hnone, rfl⟩
      · obtain ⟨b0, hbj, hnc, hiff⟩ := hins src sa hsa c' j hOld
        obtain ⟨b', hb', hcb'⟩ := relocate_set_append hsa hcs hbj
        refine ⟨b', hb', ?_, ?_⟩
        · rw [hcs]
          exact hnc
        · intro x
          rw [hcb', hcs]
          exact hiff x
      · refine ⟨na, setAppendGet_last, ?_, ?_⟩
        · rw [hcs]
          exact hnotmem
        · intro x
          rw [hcs]
          exact hnaiff x
    · obtain ⟨b0, hbj, hnc, hiff⟩ := hins i a hold c' j hcj
      obtain ⟨b', hb', hcb'⟩ := relocate_set_append hsa hcs hbj
      refine ⟨b', hb', hnc, ?_⟩
      intro x
      rw [hcb']
      exact hiff x
  · intro i a hia c' j hcj
    rcases getElem?_set_append_cases hia with ⟨rfl, rfl⟩ | ⟨rfl, hlt, rfl⟩ | ⟨hne, hold⟩
    · rw [hnarc] at hcj
      obtain ⟨hc1, hj1⟩ := lookupA_singleton hcj
      rw [hj1, hc1]
      refine ⟨src', by rw [setAppendGet_left hsrclt]; exact setGet_self hsrclt, ?_, ?_⟩
      · exact (hnaiff c).mpr (Or.inr rfl)
      · intro x
        rw [hcs]
        constructor
        · intro hx
          refine ⟨(hnaiff x).mpr (Or.inl hx), ?_⟩
          intro hxc
          exact hnotmem (hxc ▸ hx)
        · rintro ⟨hxk, hxc⟩
          rcases (hnaiff x).mp hxk with hx | hx
          · exact hx
          · exact absurd hx hxc
    · rw [hrc] at hcj
      obtain ⟨b0, hbj, hcm, hiff⟩ := hrem src sa hsa c' j hcj
      obtain ⟨b', hb', hcb'⟩ := relocate_set_append hsa hcs hbj
      refine ⟨b', hb', ?_, ?_⟩
      · rw [hcs]
        exact hcm
      · intro x
        rw [hcb', hcs]
        exact hiff x
    · obtain ⟨b0, hbj, hcm, hiff⟩ := hrem i a hold c' j hcj
      obtain ⟨b', hb', hcb'⟩ := relocate_set_append hsa hcs hbj
      exact ⟨b', hb', hcm, fun x => by rw [hcb']; exact hiff x⟩

theorem edges_cache_rem {w : Archetypes} {bc' : List (List Nat × Nat)}
    {src c ex : Nat} {sa src' b : Archetype}
    (hsa : w.archetypes[src]? = some sa)
    (hins : InsEdgesOk w) (hrem : RemEdgesOk w)
    (hcs : colset src' = colset sa)
    (hic : src'.insert_components = sa.insert_components)
    (hrc : src'.remove_components = insertA sa.remove_components c ex)
    (hbex : w.archetypes[ex]? = some b)
    (hbiff : ∀ x, x ∈ colset b ↔ x ∈ colset sa ∧ x ≠ c)
    (hcmem : c ∈ colset sa) :
    InsEdgesOk ⟨w.archetypes.set src src', bc'⟩ ∧
    RemEdgesOk ⟨w.archetypes.set src src', bc'⟩ := by
  constructor
  · intro i a hia c' j hcj
    rcases getElem?_set_cases hia with ⟨rfl, hlt, rfl⟩ | ⟨hne, hold⟩
    · rw [hic] at hcj
      obtain ⟨b0, hbj, hnc, hiff⟩ := hins src sa hsa c' j hcj
      obtain ⟨b', hb', hcb'⟩ := relocate_set hsa hcs hbj
      refine ⟨b', hb', ?_, ?_⟩
      · rw [hcs]
        exact hnc
      · intro x
        rw [hcb', hcs]
        exact hiff x
    · obtain ⟨b0, hbj, hnc, hiff⟩ := hins i a hold c' j hcj
      obtain ⟨b', hb', hcb'⟩ := relocate_set hsa hcs hbj
      exact ⟨b', hb', hnc, fun x => by rw [hcb']; exact hiff x⟩
  · intro i a hia c' j hcj
    rcases getElem?_set_cases hia with ⟨rfl, hlt, rfl⟩ | ⟨hne, hold⟩
    · rw [hrc] at hcj
      rcases lookupA_insertA_cases hcj with hOld | ⟨rfl, hnone, rfl⟩
      · obtain ⟨b0, hbj, hcm, hiff⟩ := hrem src sa hsa c' j hOld
        obtain ⟨b', hb', hcb'⟩ := relocate_set hsa hcs hbj
        refine ⟨b', hb', ?_, ?_⟩
        · rw [hcs]
          exact hcm
        · intro x
          rw [hcb', hcs]
          exact hiff x
      · obtain ⟨b', hb', hcb'⟩ := relocate_set hsa hcs hbex
        refine ⟨b', hb', ?_, ?_⟩
        · rw [hcs]
          exact hcmem
        · intro x
          rw [hcb', hcs]
          exact hbiff x
    · obtain ⟨b0, hbj, hcm, hiff⟩ := hrem i a hold c' j hcj
      obtain ⟨b', hb', hcb'⟩ := relocate_set hsa hcs hbj
      exact ⟨b', hb', hcm, fun x => by rw [hcb']; exact hiff x⟩

theorem edges_create_rem {w : Archetypes} {bc' : List (List Nat × Nat)}
    {src c : Nat} {sa src' na : Archetype}
    (hsa : w.archetypes[src]? = some sa)
    (hins : InsEdgesOk w) (hrem : RemEdgesOk w)
    (hcs : colset src' = colset sa)
    (hic : src'.insert_components = sa.insert_components)
    (hrc : src'.remove_components = insertA sa.remove_components c w.archetypes.length)
    (hnaiff : ∀ x, x ∈ colset na ↔ x ∈ colset sa ∧ x ≠ c)
    (hnaic : na.insert_components = [(c, src)])
    (hnarc : na.remove_components = [])
    (hcmem : c ∈ colset sa) :
    InsEdgesOk ⟨(w.archetypes.set src src') ++ [na], bc'⟩ ∧
    RemEdgesOk ⟨(w.archetypes.set src src') ++ [na], bc'⟩ := by
  have hsrclt : src < w.archetypes.length := (List.getElem?_eq_some.mp hsa).1
  constructor
  · intro i a hia c' j hcj
    rcases getElem?_set_append_cases hia with ⟨rfl, rfl⟩ | ⟨rfl, hlt, rfl⟩ | ⟨hne, hold⟩
    · rw [hnaic] at hcj
      obtain ⟨hc1, hj1⟩ := lookupA_singleton hcj
      rw [hj1, hc1]
      refine ⟨src', by rw [setAppendGet_left hsrclt]; exact setGet_self hsrclt, ?_, ?_⟩
      · intro hcna
        exact ((hnaiff c).mp hcna).2 rfl
      · intro x
        rw [hcs]
        constructor
        · intro hx
          by_cases hxc : x = c
          · exact Or.inr hxc
          · exact Or.inl ((hnaiff x).mpr ⟨hx, hxc⟩)
        · rintro (hx | rfl)
          · exact ((hnaiff x).mp hx).1
          · exact hcmem
    · rw [hic] at hcj
      obtain ⟨b0, hbj, hnc, hiff⟩ := hins src sa hsa c' j hcj
      obtain ⟨b', hb', hcb'⟩ := relocate_set_append hsa hcs hbj
      refine ⟨b', hb', ?_, ?_⟩
      · rw [hcs]
        exact hnc
      · intro x
        rw [hcb', hcs]
        exact hiff x
    · obtain ⟨b0, hbj, hnc, hiff⟩ := hins i a hold c' j hcj
      obtain ⟨b', hb', hcb'⟩ := relocate_set_append hsa hcs hbj
      exact ⟨b', hb', hnc, fun x => by rw [hcb']; exact hiff x⟩
  · intro i a hia c' j hcj
    rcases getElem?_set_append_cases hia with ⟨rfl, rfl⟩ | ⟨rfl, hlt, rfl⟩ | ⟨hne, hold⟩
    · rw [hnarc] at hcj
      simp [lookupA] at hcj
    · rw [hrc] at hcj
      rcases lookupA_insertA_cases hcj with hOld | ⟨rfl, hnone, rfl⟩
      · obtain ⟨b0, hbj, hcm, hiff⟩ := hrem src sa hsa c' j hOld
        obtain ⟨b', hb', hcb'⟩ := relocate_set_append hsa hcs hbj
        refine ⟨b', hb', ?_, ?_⟩
        · rw [hcs]
          exact hcm
        · intro x
          rw [hcb', hcs]
          exact hiff x
      · refine ⟨na, setAppendGet_last, ?_, ?_⟩
        · rw [hcs]
          exact hcmem
        · intro x
          rw [hcs]
          exact hnaiff x
    · obtain ⟨b0, hbj, hcm, hiff⟩ := hrem i a hold c' j hcj
      obtain ⟨b', hb', hcb'⟩ := relocate_set_append hsa hcs hbj
      exact ⟨b', hb', hcm, fun x => by rw [hcb']; exact hiff x⟩

theorem traverseInsert_wf {w : Archetypes} {cs : Components} {sys : List Nat}
    {m : Nat → List Nat → Bool} {src c : Nat} {w1 : Archetypes} {d : Nat}
    (hwf : Wf w) (h : traverseInsert w cs sys m src c = .ok (w1, d)) :
    Wf w1 := by
  obtain ⟨hsort, hbcs, hbcc, hins, hrem⟩ := hwf
  unfold traverseInsert at h
  dsimp only at h
  split at h
  · cases h
  next sa hsaq =>
    have hsa : w.archetypes[src]? = some sa := by
      rw [← List.get?_eq_getElem?]
      exact hsaq
    split at h
    next dd hdd =>
      rw [Except.ok.injEq, Prod.mk.injEq] at h
      obtain ⟨rfl, -⟩ := h
      exact ⟨hsort, hbcs, hbcc, hins, hrem⟩
    next hdd =>
      split at h
      next i0 hok =>
        rw [Except.ok.injEq, Prod.mk.injEq] at h
        obtain ⟨rfl, -⟩ := h
        exact ⟨hsort, hbcs, hbcc, hins, hrem⟩
      next idx herr =>
        have hsasort := hsort src sa hsa
        have hnotmem : c ∉ colset sa := searchSorted_err_not_mem hsasort herr
        have hmemkey : ∀ x, x ∈ insertAt (colset sa) idx c ↔ x ∈ colset sa ∨ x = c := by
          intro x
          rw [mem_insertAt]
          exact or_comm
        split at h
        next ex hex =>
          rw [Except.ok.injEq, Prod.mk.injEq] at h
          obtain ⟨rfl, -⟩ := h
          obtain ⟨b, hbex, hcolb⟩ := hbcs _ ex hex
          have hbiff : ∀ x, x ∈ colset b ↔ x ∈ colset sa ∨ x = c := by
            intro x
            rw [hcolb]
            exact hmemkey x
          refine ⟨?_, ?_, ?_, ?_, ?_⟩
          · exact (wf_base_set hsa hsort hbcs hbcc (colset_with_ins sa (insertA sa.insert_components c ex))).1
          · exact (wf_base_set hsa hsort hbcs hbcc (colset_with_ins sa (insertA sa.insert_components c ex))).2.1
          · exact (wf_base_set hsa hsort hbcs hbcc (colset_with_ins sa (insertA sa.insert_components c ex))).2.2
          · exact (edges_cache_ins hsa hins hrem (colset_with_ins sa (insertA sa.insert_components c ex)) rfl rfl hbex hbiff hnotmem).1
          · exact (edges_cache_ins hsa hins hrem (colset_with_ins sa (insertA sa.insert_components c ex)) rfl rfl hbex hbiff hnotmem).2
        next hex =>
          split at h
          · cases h
          next hlen =>
            rw [Except.ok.injEq, Prod.mk.injEq] at h
            obtain ⟨rfl, -⟩ := h
            have hbounds := searchSorted_err_bounds hsasort herr
            have hkeysorted : (insertAt (colset sa) idx c).Pairwise (· < ·) :=
              insertAt_sorted hsasort hbounds.1 hbounds.2
            have hkeye : colset ({ Archetype.mk' cs w.archetypes.length (insertAt (colset sa) idx c) sys m with remove_components := [(c, src)] } : Archetype) = insertAt (colset sa) idx c :=
              colset_mk' cs w.archetypes.length (insertAt (colset sa) idx c) sys m
            have hnaiff : ∀ x, x ∈ colset ({ Archetype.mk' cs w.archetypes.length (insertAt (colset sa) idx c) sys m with remove_components := [(c, src)] } : Archetype) ↔ x ∈ colset sa ∨ x = c := by
              intro x
              rw [hkeye]
              exact hmemkey x
            refine ⟨?_, ?_, ?_, ?_, ?_⟩
            · exact (wf_base_create hsa hsort hbcs hbcc (colset_with_ins sa (insertA sa.insert_components c w.archetypes.length)) hkeye hkeysorted hex).1
            · exact (wf_base_create hsa hsort hbcs hbcc (colset_with_ins sa (insertA sa.insert_components c w.archetypes.length)) hkeye hkeysorted hex).2.1
            · exact (wf_base_create hsa hsort hbcs hbcc (colset_with_ins sa (insertA sa.insert_components c w.archetypes.length)) hkeye hkeysorted hex).2.2
            · exact (edges_create_ins hsa hins hrem (colset_with_ins sa (insertA sa.insert_components c w.archetypes.length)) rfl rfl hnaiff rfl rfl hnotmem).1
            · exact (edges_create_ins hsa hins hrem (colset_with_ins sa (insertA sa.insert_components c w.archetypes.length)) rfl rfl hnaiff rfl rfl hnotmem).2

theorem traverseRemove_wf {w : Archetypes} {cs : Components} {sys : List Nat}
    {m : Nat → List Nat → Bool} {src c : Nat} {w1 : Archetypes} {d : Nat}
    (hwf : Wf w) (h : traverseRemove w cs sys m src c = .ok (w1, d)) :
    Wf w1 := by
  obtain ⟨hsort, hbcs, hbcc, hins, hrem⟩ := hwf
  unfold traverseRemove at h
  dsimp only at h
  split at h
  · cases h
  next sa hsaq =>
    have hsa : w.archetypes[src]? = some sa := by
      rw [← List.get?_eq_getElem?]
      exact hsaq
    split at h
    next dd hdd =>
      rw [Except.ok.injEq, Prod.mk.injEq] at h
      obtain ⟨rfl, -⟩ := h
      exact ⟨hsort, hbcs, hbcc, hins, hrem⟩
    next hdd =>
      split at h
      next idx herr =>
        rw [Except.ok.injEq, Prod.mk.injEq] at h
        obtain ⟨rfl, -⟩ := h
        exact ⟨hsort, hbcs, hbcc, hins, hrem⟩
      next i0 hok =>
        have hsasort := hsort src sa hsa
        have hcmem : c ∈ colset sa := searchSorted_ok_mem hok
        have hmemkey : ∀ x, x ∈ (colset sa).filter (fun y => y != c) ↔ x ∈ colset sa ∧ x ≠ c := by
          intro x
          simp [List.mem_filter]
        have hkeysorted : ((colset sa).filter (fun y => y != c)).Pairwise (· < ·) :=
          List.Pairwise.filter _ hsasort
        split at h
        next ex hex =>
          rw [Except.ok.injEq, Prod.mk.injEq] at h
          obtain ⟨rfl, -⟩ := h
          obtain ⟨b, hbex, hcolb⟩ := hbcs _ ex hex
          have hbiff : ∀ x, x ∈ colset b ↔ x ∈ colset sa ∧ x ≠ c := by
            intro x
            rw [hcolb]
            exact hmemkey x
          refine ⟨?_, ?_, ?_, ?_, ?_⟩
          · exact (wf_base_set hsa hsort hbcs hbcc (colset_with_rem sa (insertA sa.remove_components c ex))).1
          · exact (wf_base_set hsa hsort hbcs hbcc (colset_with_rem sa (insertA sa.remove_components c ex))).2.1
          · exact (wf_base_set hsa hsort hbcs hbcc (colset_with_rem sa (insertA sa.remove_components c ex))).2.2
          · exact (edges_cache_rem hsa hins hrem (colset_with_rem sa (insertA sa.remove_components c ex)) rfl rfl hbex hbiff hcmem).1
          · exact (edges_cache_rem hsa hins hrem (colset_with_rem sa (insertA sa.remove_components c ex)) rfl rfl hbex hbiff hcmem).2
        next hex =>
          split at h
          · cases h
          next hlen =>
            rw [Except.ok.injEq, Prod.mk.injEq] at h
            obtain ⟨rfl, -⟩ := h
            have hkeye : colset ({ Archetype.mk' cs w.archetypes.length ((colset sa).filter (fun y => y != c)) sys m with insert_components := [(c, src)] } : Archetype) = (colset sa).filter (fun y => y != c) :=
              colset_mk' cs w.archetypes.length ((colset sa).filter (fun y => y != c)) sys m
            have hnaiff : ∀ x, x ∈ colset ({ Archetype.mk' cs w.archetypes.length ((colset sa).filter (fun y => y != c)) sys m with insert_components := [(c, src)] } : Archetype) ↔ x ∈ colset sa ∧ x ≠ c := by
              intro x
              rw [hkeye]
              exact hmemkey x
            refine ⟨?_, ?_, ?_, ?_, ?_⟩
            · exact (wf_base_create hsa hsort hbcs hbcc (colset_with_rem sa (insertA sa.remove_components c w.archetypes.length)) hkeye hkeysorted hex).1
            · exact (wf_base_create hsa hsort hbcs hbcc (colset_with_rem sa (insertA sa.remove_components c w.archetypes.length)) hkeye hkeysorted hex).2.1
            · exact (wf_base_create hsa hsort hbcs hbcc (colset_with_rem sa (insertA sa.remove_components c w.archetypes.length)) hkeye hkeysorted hex).2.2
            · exact (edges_create_rem hsa hins hrem (colset_with_rem sa (insertA sa.remove_components c w.archetypes.length)) rfl rfl hnaiff rfl rfl hcmem).1
            · exact (edges_create_rem hsa hins hrem (colset_with_rem sa (insertA sa.remove_components c w.archetypes.length)) rfl rfl hnaiff rfl rfl hcmem).2

theorem traverseInsert_seed {w : Archetypes} {cs : Components} {sys : List Nat}
    {m : Nat → List Nat → Bool} {src c : Nat} {w1 : Archetypes} {d : Nat}
    (h : traverseInsert w cs sys m src c = .ok (w1, d)) :
    ∀ a, w1.archetypes[w.archetypes.length]? = some a →
      lookupA a.remove_components c = some src := by
  unfold traverseInsert at h
  dsimp only at h
  split at h
  · cases h
  next sa hsaq =>
    split at h
    next dd hdd =>
      rw [Except.ok.injEq, Prod.mk.injEq] at h
      obtain ⟨rfl, -⟩ := h
      intro a ha
      rw [List.getElem?_eq_none (le_refl _)] at ha
      cases ha
    next hdd =>
      split at h
      next i0 hok =>
        rw [Except.ok.injEq, Prod.mk.injEq] at h
        obtain ⟨rfl, -⟩ := h
        intro a ha
        rw [List.getElem?_eq_none (le_refl _)] at ha
        cases ha
      next idx herr =>
        split at h
        next ex hex =>
          rw [Except.ok.injEq, Prod.mk.injEq] at h
          obtain ⟨rfl, -⟩ := h
          intro a ha
          rw [List.getElem?_eq_none (by rw [List.length_set])] at ha
          cases ha
        next hex =>
          split at h
          · cases h
          next hlen =>
            rw [Except.ok.injEq, Prod.mk.injEq] at h
            obtain ⟨rfl, -⟩ := h
            intro a ha
            rw [setAppendGet_last] at ha
            obtain rfl := Option.some_inj.mp ha
            exact lookupA_singleton_self c src

theorem traverseRemove_seed {w : Archetypes} {cs : Components} {sys : List Nat}
    {m : Nat → List Nat → Bool} {src c : Nat} {w1 : Archetypes} {d : Nat}
    (h : traverseRemove w cs sys m src c = .ok (w1, d)) :
    ∀ a, w1.archetypes[w.archetypes.length]? = some a →
      lookupA a.insert_components c = some src := by
  unfold traverseRemove at h
  dsimp only at h
  split at h
  · cases h
  next sa hsaq =>
    split at h
    next dd hdd =>
      rw [Except.ok.injEq, Prod.mk.injEq] at h
      obtain ⟨rfl, -⟩ := h
      intro a ha
      rw [List.getElem?_eq_none (le_refl _)] at ha
      cases ha
    next hdd =>
      split at h
      next idx herr =>
        rw [Except.ok.injEq, Prod.mk.injEq] at h
        obtain ⟨rfl, -⟩ := h
        intro a ha
        rw [List.getElem?_eq_none (le_refl _)] at ha
        cases ha
      next i0 hok =>
        split at h
        next ex hex =>
          rw [Except.ok.injEq, Prod.mk.injEq] at h
          obtain ⟨rfl, -⟩ := h
          intro a ha
          rw [List.getElem?_eq_none (by rw [List.length_set])] at ha
          cases ha
        next hex =>
          split at h
          · cases h
          next hlen =>
            rw [Except.ok.injEq, Prod.mk.injEq] at h
            obtain ⟨rfl, -⟩ := h
            intro a ha
            rw [setAppendGet_last] at ha
            obtain rfl := Option.some_inj.mp ha
            exact lookupA_singleton_self c src

theorem wf_new : Wf Archetypes.new := by
  refine ⟨?_, ?_, ?_, ?_, ?_⟩
  · intro i a ha
    cases i with
    | zero =>
      obtain rfl := Option.some_inj.mp ha
      exact List.Pairwise.nil
    | succ n => simp [Archetypes.new] at ha
  · intro key i hk
    by_cases hkey : key = []
    · subst hkey
      have hi : i = 0 := by
        simpa [lookupBC, Archetypes.new, List.find?] using hk.symm
      subst hi
      exact ⟨Archetype.emptyArch, rfl, rfl⟩
    · exfalso
      have hb : (([] : List Nat) == key) = false := beq_eq_false_iff_ne.mpr (Ne.symm hkey)
      simp [lookupBC, Archetypes.new, List.find?, hb] at hk
  · intro i a ha
    cases i with
    | zero =>
      obtain rfl := Option.some_inj.mp ha
      rfl
    | succ n => simp [Archetypes.new] at ha
  · intro i a ha c j hc
    cases i with
    | zero =>
      obtain rfl := Option.some_inj.mp ha
      simp [lookupA, Archetypes.new, Archetype.emptyArch, List.find?] at hc
    | succ n => simp [Archetypes.new] at ha
  · intro i a ha c j hc
    cases i with
    | zero =>
      obtain rfl := Option.some_inj.mp ha
      simp [lookupA, Archetypes.new, Archetype.emptyArch, List.find?] at hc
    | succ n => simp [Archetypes.new] at ha

/-- C5: edge coherence holds after `traverse_insert` / `traverse_remove`
(given the structural invariants before the call): every cached insert edge
`c ↦ B` at `A` satisfies `B.components = A.components ∪ {c}` with
`c ∉ A.components`, every cached remove edge `c ↦ B` satisfies
`B.components = A.components \ {c}` with `c ∈ A.components`, and a newly
created destination archetype is seeded with the reverse edge back to its
source. -/
theorem traverse_edge_coherence
    (w : Archetypes) (cs cs2 : Components) (sys sys2 : List Nat)
    (m m2 : Nat → List Nat → Bool) (src c src2 c2 : Nat)
    (w1 w2 : Archetypes) (d1 d2 : Nat)
    (hwf : Wf w)
    (hins : traverseInsert w cs sys m src c = .ok (w1, d1))
    (hrem : traverseRemove w cs2 sys2 m2 src2 c2 = .ok (w2, d2)) :
    (InsEdgesOk w1 ∧ RemEdgesOk w1 ∧ InsEdgesOk w2 ∧ RemEdgesOk w2) ∧
    (∀ a, w1.archetypes[w.archetypes.length]? = some a →
        lookupA a.remove_components c = some src) ∧
    (∀ a, w2.archetypes[w.archetypes.length]? = some a →
        lookupA a.insert_components c2 = some src2) := by
  have h1 := traverseInsert_wf hwf hins
  have h2 := traverseRemove_wf hwf hrem
  exact ⟨⟨h1.2.2.2.1, h1.2.2.2.2, h2.2.2.2.1, h2.2.2.2.2⟩,
         traverseInsert_seed hins, traverseRemove_seed hrem⟩

/-- Witness for C5: a fresh world; the insert traversal creates archetype 1
for `{0}` and seeds its reverse remove edge back to the empty archetype. -/
theorem traverse_edge_coherence_witness :
    ∃ r1 r2,
      traverseInsert Archetypes.new cs1 [] (fun _ _ => false) 0 0 = .ok r1 ∧
      traverseRemove Archetypes.new cs1 [] (fun _ _ => false) 0 5 = .ok r2 ∧
      InsEdgesOk r1.1 ∧ RemEdgesOk r1.1 ∧ InsEdgesOk r2.1 ∧ RemEdgesOk r2.1 ∧
      (∀ a, r1.1.archetypes[1]? = some a → lookupA a.remove_components 0 = some 0) := by
  have h := traverse_edge_coherence Archetypes.new cs1 cs1 [] []
    (fun _ _ => false) (fun _ _ => false) 0 0 0 5 _ _ _ _ wf_new rfl rfl
  exact ⟨_, _, rfl, rfl, h.1.1, h.1.2.1, h.1.2.2.1, h.1.2.2.2, h.2.1⟩

/-- C6: `traverse_insert` is memoised and idempotent: a second call with the
same source and component returns the same destination index and the very
same state (no new archetype is created), and at most one archetype index
maps to a given sorted component set. -/
theorem traverseInsert_memoised
    (w : Archetypes) (cs : Components) (sys : List Nat)
    (m : Nat → List Nat → Bool) (src c : Nat) (w1 : Archetypes) (d : Nat)
    (hwf : Wf w)
    (h : traverseInsert w cs sys m src c = .ok (w1, d)) :
    traverseInsert w1 cs sys m src c = .ok (w1, d) ∧
    (∀ (i j : Nat) a b, w1.archetypes[i]? = some a → w1.archetypes[j]? = some b →
      colset a = colset b → i = j) := by
  have hwf1 := traverseInsert_wf hwf h
  have huniq : ∀ (i j : Nat) a b, w1.archetypes[i]? = some a →
      w1.archetypes[j]? = some b → colset a = colset b → i = j := by
    intro i j a b hi hj hcol
    have ha := hwf1.2.2.1 i a hi
    have hb := hwf1.2.2.1 j b hj
    rw [hcol] at ha
    rw [ha] at hb
    exact Option.some_inj.mp hb
  refine ⟨?_, huniq⟩
  unfold traverseInsert at h
  dsimp only at h
  split at h
  · cases h
  next sa hsaq =>
    have hsa : w.archetypes[src]? = some sa := by
      rw [← List.get?_eq_getElem?]
      exact hsaq
    have hsrclt : src < w.archetypes.length := (List.getElem?_eq_some.mp hsa).1
    split at h
    next dd hdd =>
      rw [Except.ok.injEq, Prod.mk.injEq] at h
      obtain ⟨rfl, hd⟩ := h
      simp [traverseInsert, hsa, hdd, ← hd]
    next hdd =>
      split at h
      next i0 hok =>
        rw [Except.ok.injEq, Prod.mk.injEq] at h
        obtain ⟨rfl, hd⟩ := h
        simp [traverseInsert, hsa, hdd, hok, ← hd]
      next idx herr =>
        split at h
        next ex hex =>
          rw [Except.ok.injEq, Prod.mk.injEq] at h
          obtain ⟨rfl, hd⟩ := h
          have hs2 : (w.archetypes.set src
              { sa with insert_components := insertA sa.insert_components c ex })[src]? =
              some { sa with insert_components := insertA sa.insert_components c ex } :=
            setGet_self hsrclt
          have hl2 : lookupA (insertA sa.insert_components c ex) c = some ex :=
            lookupA_insertA_self ex hdd
          simp [traverseInsert, hs2, hl2, ← hd]
        next hex =>
          split at h
          · cases h
          next hlen =>
            rw [Except.ok.injEq, Prod.mk.injEq] at h
            obtain ⟨rfl, hd⟩ := h
            have hs2 : ((w.archetypes.set src
                { sa with insert_components := insertA sa.insert_components c w.archetypes.length })
                ++ [{ Archetype.mk' cs w.archetypes.length (insertAt (colset sa) idx c) sys m with
                      remove_components := [(c, src)] }])[src]? =
                some { sa with insert_components := insertA sa.insert_components c w.archetypes.length } := by
              rw [setAppendGet_left hsrclt]
              exact setGet_self hsrclt
            have hl2 : lookupA (insertA sa.insert_components c w.archetypes.length) c =
                some w.archetypes.length :=
              lookupA_insertA_self w.archetypes.length hdd
            simp [traverseInsert, hs2, hl2, ← hd]

/-- Witness for C6: re-traversing the freshly created edge returns the same
archetype (index 1) with the state unchanged. -/
theorem traverseInsert_memoised_witness :
    Wf Archetypes.new ∧
    ∃ r, traverseInsert Archetypes.new cs1 [] (fun _ _ => false) 0 0 = .ok r ∧
      traverseInsert r.1 cs1 [] (fun _ _ => false) 0 0 = .ok r ∧
      (∀ (i j : Nat) a b, r.1.archetypes[i]? = some a → r.1.archetypes[j]? = some b →
        colset a = colset b → i = j) :=
  ⟨wf_new, _, rfl,
   (traverseInsert_memoised Archetypes.new cs1 [] (fun _ _ => false) 0 0 _ _ wf_new rfl).1,
   (traverseInsert_memoised Archetypes.new cs1 [] (fun _ _ => false) 0 0 _ _ wf_new rfl).2⟩

/-- C8: exhausting the 32-bit id spaces is fatal.  When a new archetype
would need an index at or beyond `u32::MAX`, `traverse_insert` and
`traverse_remove` end in the `too many archetypes` panic (embedded as
`.error .tooManyArchetypes`); when the component slot space is exhausted,
`Components::add` ends in the `too many components` panic.  The Rust
signatures return plain values, so these conditions are never surfaced as
recoverable results. -/
theorem exhaustion_is_fatal :
    (∀ (w : Archetypes) (cs : Components) (sys : List Nat)
       (m : Nat → List Nat → Bool) (src c : Nat) (sa : Archetype) (idx : Nat),
       w.archetypes[src]? = some sa →
       lookupA sa.insert_components c = none →
       searchSorted (colset sa) c = .error idx →
       lookupBC w.by_components (insertAt (colset sa) idx c) = none →
       u32Max ≤ w.archetypes.length →
       traverseInsert w cs sys m src c = .error .tooManyArchetypes) ∧
    (∀ (w : Archetypes) (cs : Components) (sys : List Nat)
       (m : Nat → List Nat → Bool) (src c : Nat) (sa : Archetype) (i0 : Nat),
       w.archetypes[src]? = some sa →
       lookupA sa.remove_components c = none →
       searchSorted (colset sa) c = .ok i0 →
       lookupBC w.by_components ((colset sa).filter (fun y => y != c)) = none →
       u32Max ≤ w.archetypes.length →
       traverseRemove w cs sys m src c = .error .tooManyArchetypes) ∧
    (∀ (cs : Components) (desc : ComponentDescriptor),
       (desc.typeId = none ∨ ∃ t, desc.typeId = some t ∧ lookupA cs.by_type_id t = none) →
       u32Max ≤ cs.sm.length →
       Components.add cs desc = .error ()) := by
  refine ⟨?_, ?_, ?_⟩
  · intro w cs sys m src c sa idx hsa hedge herr hbc hlen
    simp [traverseInsert, hsa, hedge, herr, hbc, hlen]
  · intro w cs sys m src c sa i0 hsa hedge hok hbc hlen
    simp [traverseRemove, hsa, hedge, hok, hbc, hlen]
  · intro cs desc hdesc hlen
    rcases hdesc with h | ⟨t, ht, hnone⟩
    · simp [Components.add, h, hlen]
    · simp [Components.add, ht, hnone, hlen]

/-- Witness for C8 at concrete states filling the 32-bit spaces. -/
theorem exhaustion_is_fatal_witness :
    traverseInsert ⟨Archetype.emptyArch :: List.replicate (u32Max - 1) Archetype.emptyArch, []⟩
        cs1 [] (fun _ _ => false) 0 5 = .error .tooManyArchetypes ∧
    traverseRemove ⟨archC4 :: List.replicate (u32Max - 1) archC4, []⟩
        cs1 [] (fun _ _ => false) 0 3 = .error .tooManyArchetypes ∧
    Components.add ⟨List.replicate u32Max ⟨none, 1⟩, []⟩ ⟨none, 1⟩ = .error () := by
  have hpos : 1 ≤ u32Max := by decide
  have hlen1 : u32Max ≤ (Archetype.emptyArch :: List.replicate (u32Max - 1) Archetype.emptyArch).length := by
    rw [List.length_cons, List.length_replicate]
    omega
  have hlen2 : u32Max ≤ (archC4 :: List.replicate (u32Max - 1) archC4).length := by
    rw [List.length_cons, List.length_replicate]
    omega
  have hlen3 : u32Max ≤ (List.replicate u32Max (⟨none, 1⟩ : ComponentInfo)).length := by
    rw [List.length_replicate]
  refine ⟨?_, ?_, ?_⟩
  · exact exhaustion_is_fatal.1 _ cs1 [] (fun _ _ => false) 0 5 Archetype.emptyArch 0
      List.getElem?_cons_zero rfl rfl rfl hlen1
  · exact exhaustion_is_fatal.2.1 _ cs1 [] (fun _ _ => false) 0 3 archC4 0
      List.getElem?_cons_zero rfl rfl rfl hlen2
  · exact exhaustion_is_fatal.2.2 _ ⟨none, 1⟩ (Or.inl rfl) hlen3

theorem mergeLoopF_props (srcIdx dstIdx row : Nat) :
    ∀ (fuel : Nat) (sc dc : List Column) (nc : List (Nat × Nat))
      (out : List Column × List Column × List (Nat × Nat) × List MoveEvent),
      mergeLoopF srcIdx dstIdx row fuel sc dc nc = some out →
      out.1.map (fun col => col.component_idx) = sc.map (fun col => col.component_idx) ∧
      out.2.1.map (fun col => col.component_idx) = dc.map (fun col => col.component_idx) ∧
      ∀ e ∈ out.2.2.2, e.isNotify = false := by
  intro fuel
  induction fuel with
  | zero =>
    intro sc dc nc out h
    match sc, dc with
    | [], [] =>
      simp only [mergeLoopF] at h
      obtain rfl := Option.some_inj.mp h
      exact ⟨rfl, rfl, fun e he => absurd he (List.not_mem_nil e)⟩
    | s :: ss, dc => simp [mergeLoopF] at h
    | [], d :: ds => simp [mergeLoopF] at h
  | succ n ih =>
    intro sc dc nc out h
    match sc, dc with
    | [], [] =>
      simp only [mergeLoopF] at h
      obtain rfl := Option.some_inj.mp h
      exact ⟨rfl, rfl, fun e he => absurd he (List.not_mem_nil e)⟩
    | s :: ss, [] =>
      simp only [mergeLoopF] at h
      cases hrec : mergeLoopF srcIdx dstIdx row n ss [] nc with
      | none => rw [hrec] at h; cases h
      | some out0 =>
        obtain ⟨s1, d1, rest1, evs1⟩ := out0
        rw [hrec] at h
        dsimp only at h
        obtain rfl := Option.some_inj.mp h
        obtain ⟨hs, hd, he⟩ := ih ss [] nc (s1, d1, rest1, evs1) hrec
        refine ⟨?_, hd, ?_⟩
        · dsimp only [List.map]
          rw [hs]
        · intro e he2
          rcases List.mem_cons.mp he2 with rfl | he2
          · rfl
          · exact he e he2
    | [], d :: ds =>
      simp only [mergeLoopF] at h
      match nc with
      | [] =>
        dsimp only at h
        cases h
      | (cid, v) :: nc2 =>
        dsimp only at h
        cases hrec : mergeLoopF srcIdx dstIdx row n [] ds nc2 with
        | none => rw [hrec] at h; cases h
        | some out0 =>
          obtain ⟨s1, d1, rest1, evs1⟩ := out0
          rw [hrec] at h
          dsimp only at h
          obtain rfl := Option.some_inj.mp h
          obtain ⟨hs, hd, he⟩ := ih [] ds nc2 (s1, d1, rest1, evs1) hrec
          refine ⟨hs, ?_, ?_⟩
          · dsimp only [List.map]
            rw [hd]
          · intro e he2
            rcases List.mem_cons.mp he2 with rfl | he2
            · rfl
            · exact he e he2
    | s :: ss, d :: ds =>
      simp only [mergeLoopF] at h
      by_cases hlt : s.component_idx < d.component_idx
      · rw [if_pos hlt] at h
        cases hrec : mergeLoopF srcIdx dstIdx row n ss (d :: ds) nc with
        | none => rw [hrec] at h; cases h
        | some out0 =>
          obtain ⟨s1, d1, rest1, evs1⟩ := out0
          rw [hrec] at h
          dsimp only at h
          obtain rfl := Option.some_inj.mp h
          obtain ⟨hs, hd, he⟩ := ih ss (d :: ds) nc (s1, d1, rest1, evs1) hrec
          refine ⟨?_, hd, ?_⟩
          · dsimp only [List.map]
            rw [hs]
          · intro e he2
            rcases List.mem_cons.mp he2 with rfl | he2
            · rfl
            · exact he e he2
      · rw [if_neg hlt] at h
        by_cases heq : s.component_idx = d.component_idx
        · rw [if_pos heq] at h
          cases hrec : mergeLoopF srcIdx dstIdx row n ss ds nc with
          | none => rw [hrec] at h; cases h
          | some out0 =>
            obtain ⟨s1, d1, rest1, evs1⟩ := out0
            rw [hrec] at h
            dsimp only at h
            obtain rfl := Option.some_inj.mp h
            obtain ⟨hs, hd, he⟩ := ih ss ds nc (s1, d1, rest1, evs1) hrec
            refine ⟨?_, ?_, ?_⟩
            · dsimp only [List.map]
              rw [hs]
            · dsimp only [List.map]
              rw [hd]
            · intro e he2
              rcases List.mem_cons.mp he2 with rfl | he2
              · rfl
              · rcases List.mem_cons.mp he2 with rfl | he3
                · rfl
                · exact he e he3
        · rw [if_neg heq] at h
          match nc with
          | [] =>
            dsimp only at h
            cases h
          | (cid, v) :: nc2 =>
            dsimp only at h
            cases hrec : mergeLoopF srcIdx dstIdx row n (s :: ss) ds nc2 with
            | none => rw [hrec] at h; cases h
            | some out0 =>
              obtain ⟨s1, d1, rest1, evs1⟩ := out0
              rw [hrec] at h
              dsimp only at h
              obtain rfl := Option.some_inj.mp h
              obtain ⟨hs, hd, he⟩ := ih (s :: ss) ds nc2 (s1, d1, rest1, evs1) hrec
              refine ⟨hs, ?_, ?_⟩
              · dsimp only [List.map]
                rw [hd]
              · intro e he2
                rcases List.mem_cons.mp he2 with rfl | he2
                · rfl
                · exact he e he2

theorem mergeLoop_props {srcIdx dstIdx row : Nat} {sc dc : List Column}
    {nc rest : List (Nat × Nat)} {s' d' : List Column} {evs : List MoveEvent}
    (h : mergeLoop srcIdx dstIdx row sc dc nc = some (s', d', rest, evs)) :
    s'.map (fun col => col.component_idx) = sc.map (fun col => col.component_idx) ∧
    d'.map (fun col => col.component_idx) = dc.map (fun col => col.component_idx) ∧
    ∀ e ∈ evs, e.isNotify = false :=
  mergeLoopF_props srcIdx dstIdx row (sc.length + dc.length) sc dc nc (s', d', rest, evs) h

theorem moveEntity_spec {w : Archetypes} {es : List (Nat × EntityLoc)}
    {src : EntityLoc} {dst : Nat} {nc : List (Nat × Nat)}
    {w' : Archetypes} {es' : List (Nat × EntityLoc)} {row : Nat} {tr : List MoveEvent}
    (hne : src.archetype ≠ dst)
    (h : moveEntity w es src dst nc = some (w', es', row, tr)) :
    ∃ sa da srcCols dstCols rest colEvents entity_id,
      w.archetypes[src.archetype]? = some sa ∧
      w.archetypes[dst]? = some da ∧
      mergeLoop src.archetype dst src.row sa.columns da.columns nc =
        some (srcCols, dstCols, rest, colEvents) ∧
      sa.entity_ids[src.row]? = some entity_id ∧
      row = da.entity_ids.length ∧
      w' = ⟨(w.archetypes.set src.archetype
              { sa with
                entity_ids := swapRemoveL sa.entity_ids src.row
                columns := srcCols }).set dst
              { da with
                entity_ids := da.entity_ids ++ [entity_id]
                columns := dstCols
                idsCap := vecPushCap da.entity_ids.length da.idsCap },
            w.by_components⟩ ∧
      es' = (match (swapRemoveL sa.entity_ids src.row)[src.row]? with
             | some sw => setRow (setLoc es entity_id ⟨dst, row⟩) sw src.row
             | none => setLoc es entity_id ⟨dst, row⟩) ∧
      tr = colEvents
           ++ [.idsUpdate src.archetype, .idsUpdate dst, .indexUpdate entity_id]
           ++ (match (swapRemoveL sa.entity_ids src.row)[src.row]? with
               | some sw => [MoveEvent.indexUpdate sw]
               | none => [])
           ++ ((if (swapRemoveL sa.entity_ids src.row).isEmpty then
                  sa.refresh_listeners.map (fun s => .notify s .empty src.archetype)
                else [])
               ++ (if dstArchReallocated da then
                     da.refresh_listeners.map (fun s => .notify s .refreshPtrs dst)
                   else [])
               ++ (if (da.entity_ids ++ [entity_id]).length = 1 then
                     da.refresh_listeners.map (fun s => .notify s .nonempty dst)
                   else [])) := by
  unfold moveEntity at h
  rw [if_neg hne] at h
  dsimp only at h
  split at h
  case _ sa da hsaq hdaq =>
    have hsa : w.archetypes[src.archetype]? = some sa := by
      rw [← List.get?_eq_getElem?]
      exact hsaq
    have hda : w.archetypes[dst]? = some da := by
      rw [← List.get?_eq_getElem?]
      exact hdaq
    split at h
    · cases h
    next srcCols dstCols rest colEvents hmerge =>
      split at h
      · cases h
      next entity_id hid =>
        have hid' : sa.entity_ids[src.row]? = some entity_id := by
          rw [← List.get?_eq_getElem?]
          exact hid
        have h2 := Option.some_inj.mp h
        rw [Prod.mk.injEq, Prod.mk.injEq, Prod.mk.injEq] at h2
        obtain ⟨hw, hes, hrow, htr⟩ := h2
        refine ⟨sa, da, srcCols, dstCols, rest, colEvents, entity_id,
                hsa, hda, hmerge, hid', hrow.symm, hw.symm, ?_, ?_⟩
        · rw [← hes, ← hrow]
          rw [List.get?_eq_getElem?]
        · rw [← htr]
          rw [List.get?_eq_getElem?]
  · cases h

theorem notify_block_all {ls : List Nat} {r : Reason} {ar : Nat} (cond : Prop) [Decidable cond] :
    ∀ e ∈ (if cond then ls.map (fun s => MoveEvent.notify s r ar) else []), e.isNotify = true := by
  intro e he
  split at he
  · obtain ⟨s, hs, rfl⟩ := List.mem_map.mp he
    rfl
  · cases he

theorem filter_split_events (M N : List MoveEvent)
    (hM : ∀ e ∈ M, e.isNotify = false) (hN : ∀ e ∈ N, e.isNotify = true) :
    (M ++ N).filter (fun e => !e.isNotify) = M ∧
    (M ++ N).filter (fun e => e.isNotify) = N := by
  constructor
  · rw [List.filter_append,
        List.filter_eq_self.mpr (fun a ha => by rw [hM a ha]; rfl),
        List.filter_eq_nil_iff.mpr (fun a ha => by rw [hN a ha]; simp),
        List.append_nil]
  · rw [List.filter_append,
        List.filter_eq_nil_iff.mpr (fun a ha => by rw [hM a ha]; simp),
        List.filter_eq_self.mpr (fun a ha => hN a ha),
        List.nil_append]

/-- C2: within one `move_entity` call (source ≠ destination), every column,
entity-id and entity-index update precedes every listener notification in
the event trace, and the notifications are exactly
Empty(source) — iff the source became empty (pre-move length 1) — then
RefreshPointers(destination) — iff the reallocation flag — then
Nonempty(destination) — iff the destination was empty before the move. -/
theorem moveEntity_order
    (w : Archetypes) (es : List (Nat × EntityLoc)) (src : EntityLoc) (dst : Nat)
    (nc : List (Nat × Nat)) (w' : Archetypes) (es' : List (Nat × EntityLoc))
    (row : Nat) (tr : List MoveEvent) (sa da : Archetype)
    (hne : src.archetype ≠ dst)
    (h : moveEntity w es src dst nc = some (w', es', row, tr))
    (hsa : w.archetypes[src.archetype]? = some sa)
    (hda : w.archetypes[dst]? = some da) :
    tr = tr.filter (fun e => !e.isNotify) ++ tr.filter (fun e => e.isNotify) ∧
    tr.filter (fun e => e.isNotify) =
      (if sa.entity_ids.length = 1 then
        sa.refresh_listeners.map (fun s => .notify s .empty src.archetype)
      else [])
      ++ (if dstArchReallocated da then
            da.refresh_listeners.map (fun s => .notify s .refreshPtrs dst)
          else [])
      ++ (if da.entity_ids = [] then
            da.refresh_listeners.map (fun s => .notify s .nonempty dst)
          else []) := by
  obtain ⟨sa0, da0, srcCols, dstCols, rest, colEvents, eid,
          hsa0, hda0, hmerge, hid, hrow, hw, hes, htr⟩ := moveEntity_spec hne h
  rw [hsa0] at hsa
  rw [hda0] at hda
  have hsae : sa0 = sa := Option.some_inj.mp hsa
  have hdae : da0 = da := Option.some_inj.mp hda
  rw [← hsae, ← hdae]
  have hrowlt : src.row < sa0.entity_ids.length := (List.getElem?_eq_some.mp hid).1
  have hcol := mergeLoop_props hmerge
  have hc1 : ((swapRemoveL sa0.entity_ids src.row).isEmpty = true) ↔
      sa0.entity_ids.length = 1 := by
    rw [List.isEmpty_iff_length_eq_zero, swapRemoveL_length]
    omega
  have hc3 : ((da0.entity_ids ++ [eid]).length = 1) ↔ da0.entity_ids = [] := by
    rw [List.length_append, List.length_singleton]
    constructor
    · intro h3
      exact List.length_eq_zero.mp (by omega)
    · intro h3
      rw [h3]
      rfl
  have hnotifAll : ∀ e ∈
      ((if (swapRemoveL sa0.entity_ids src.row).isEmpty then
          sa0.refresh_listeners.map (fun s => MoveEvent.notify s .empty src.archetype)
        else [])
        ++ (if dstArchReallocated da0 then
              da0.refresh_listeners.map (fun s => MoveEvent.notify s .refreshPtrs dst)
            else [])
        ++ (if (da0.entity_ids ++ [eid]).length = 1 then
              da0.refresh_listeners.map (fun s => MoveEvent.notify s .nonempty dst)
            else [])), e.isNotify = true := by
    intro e he
    rcases List.mem_append.mp he with he2 | he2
    · rcases List.mem_append.mp he2 with he3 | he3
      · exact notify_block_all _ e he3
      · exact notify_block_all _ e he3
    · exact notify_block_all _ e he2
  cases hsw : (swapRemoveL sa0.entity_ids src.row)[src.row]? with
  | some sw =>
    rw [hsw] at htr
    dsimp only at htr
    have hmutsAll : ∀ e ∈ ((colEvents
        ++ [MoveEvent.idsUpdate src.archetype, MoveEvent.idsUpdate dst, MoveEvent.indexUpdate eid])
        ++ [MoveEvent.indexUpdate sw]), e.isNotify = false := by
      intro e he
      rcases List.mem_append.mp he with he2 | he2
      · rcases List.mem_append.mp he2 with he3 | he3
        · exact hcol.2.2 e he3
        · simp only [List.mem_cons, List.not_mem_nil, or_false] at he3
          rcases he3 with rfl | rfl | rfl <;> rfl
      · simp only [List.mem_singleton] at he2
        subst he2
        rfl
    obtain ⟨hfa, hfb⟩ := filter_split_events _ _ hmutsAll hnotifAll
    rw [htr]
    constructor
    · rw [hfa, hfb]
    · rw [hfb]
      simp only [hc1, hc3]
  | none =>
    rw [hsw] at htr
    dsimp only at htr
    rw [List.append_nil] at htr
    have hmutsAll : ∀ e ∈ (colEvents
        ++ [MoveEvent.idsUpdate src.archetype, MoveEvent.idsUpdate dst, MoveEvent.indexUpdate eid]),
        e.isNotify = false := by
      intro e he
      rcases List.mem_append.mp he with he2 | he2
      · exact hcol.2.2 e he2
      · simp only [List.mem_cons, List.not_mem_nil, or_false] at he2
        rcases he2 with rfl | rfl | rfl <;> rfl
    obtain ⟨hfa, hfb⟩ := filter_split_events _ _ hmutsAll hnotifAll
    rw [htr]
    constructor
    · rw [hfa, hfb]
    · rw [hfb]
      simp only [hc1, hc3]

theorem find?_map_keypres {f : (Nat × EntityLoc) → (Nat × EntityLoc)}
    (hf : ∀ p, (f p).1 = p.1) (es : List (Nat × EntityLoc)) (x : Nat) :
    (es.map f).find? (fun p => p.1 == x) = (es.find? (fun p => p.1 == x)).map f := by
  induction es with
  | nil => rfl
  | cons p ps ih =>
    by_cases hp : (p.1 == x) = true
    · rw [List.map_cons,
          @List.find?_cons_of_pos _ (fun q => q.1 == x) (f p) (ps.map f) (by show ((f p).1 == x) = true; rw [hf p]; exact hp),
          @List.find?_cons_of_pos _ (fun q => q.1 == x) p ps hp]
      rfl
    · rw [List.map_cons,
          @List.find?_cons_of_neg _ (fun q => q.1 == x) (f p) (ps.map f) (by show ¬((f p).1 == x) = true; rw [hf p]; exact hp),
          @List.find?_cons_of_neg _ (fun q => q.1 == x) p ps hp, ih]

theorem setLoc_keypres (id : Nat) (loc : EntityLoc) :
    ∀ p : Nat × EntityLoc, ((fun q => if q.1 = id then (q.1, loc) else q) p).1 = p.1 := by
  intro p
  by_cases hp : p.1 = id <;> simp [hp]

theorem setRow_keypres (id r : Nat) :
    ∀ p : Nat × EntityLoc,
      ((fun q => if q.1 = id then (q.1, (⟨q.2.archetype, r⟩ : EntityLoc)) else q) p).1 = p.1 := by
  intro p
  by_cases hp : p.1 = id <;> simp [hp]

theorem lookupLoc_setLoc_self {es : List (Nat × EntityLoc)} {id : Nat} {loc l0 : EntityLoc}
    (h : lookupLoc es id = some l0) :
    lookupLoc (setLoc es id loc) id = some loc := by
  unfold lookupLoc setLoc at *
  rw [find?_map_keypres (setLoc_keypres id loc)]
  cases hf : es.find? (fun p => p.1 == id) with
  | none => rw [hf] at h; cases h
  | some p =>
    have hp : (p.1 == id) = true := @List.find?_some _ (fun q => q.1 == id) p es hf
    simp [beq_iff_eq.mp hp]

theorem lookupLoc_setLoc_other {es : List (Nat × EntityLoc)} {id x : Nat} {loc : EntityLoc}
    (hx : x ≠ id) :
    lookupLoc (setLoc es id loc) x = lookupLoc es x := by
  unfold lookupLoc setLoc
  rw [find?_map_keypres (setLoc_keypres id loc)]
  cases hf : es.find? (fun p => p.1 == x) with
  | none => rfl
  | some p =>
    have hp : (p.1 == x) = true := @List.find?_some _ (fun q => q.1 == x) p es hf
    have hne : ¬p.1 = id := by
      rw [beq_iff_eq.mp hp]
      exact hx
    simp [hne]

theorem lookupLoc_setRow_self {es : List (Nat × EntityLoc)} {id r : Nat} {l0 : EntityLoc}
    (h : lookupLoc es id = some l0) :
    lookupLoc (setRow es id r) id = some ⟨l0.archetype, r⟩ := by
  unfold lookupLoc setRow at *
  rw [find?_map_keypres (setRow_keypres id r)]
  cases hf : es.find? (fun p => p.1 == id) with
  | none => rw [hf] at h; cases h
  | some p =>
    have hp : (p.1 == id) = true := @List.find?_some _ (fun q => q.1 == id) p es hf
    rw [hf] at h
    have hpl : p.2 = l0 := Option.some_inj.mp h
    simp [beq_iff_eq.mp hp, hpl]

theorem lookupLoc_setRow_other {es : List (Nat × EntityLoc)} {id r x : Nat}
    (hx : x ≠ id) :
    lookupLoc (setRow es id r) x = lookupLoc es x := by
  unfold lookupLoc setRow
  rw [find?_map_keypres (setRow_keypres id r)]
  cases hf : es.find? (fun p => p.1 == x) with
  | none => rfl
  | some p =>
    have hp : (p.1 == x) = true := @List.find?_some _ (fun q => q.1 == x) p es hf
    have hne : ¬p.1 = id := by
      rw [beq_iff_eq.mp hp]
      exact hx
    simp [hne]

theorem consistent_unique {w : Archetypes} {es : List (Nat × EntityLoc)}
    (hcons : Consistent w es)
    {a b : Nat} {A B : Archetype} {i j : Nat} {x : Nat}
    (hA : w.archetypes[a]? = some A) (hiA : A.entity_ids[i]? = some x)
    (hB : w.archetypes[b]? = some B) (hjB : B.entity_ids[j]? = some x) :
    a = b ∧ i = j := by
  have h1 := hcons a A hA i x hiA
  have h2 := hcons b B hB j x hjB
  rw [h1] at h2
  have h3 : (⟨a, i⟩ : EntityLoc) = ⟨b, j⟩ := Option.some_inj.mp h2
  exact ⟨congrArg EntityLoc.archetype h3, congrArg EntityLoc.row h3⟩

theorem appGet_left {α : Type} {l l2 : List α} {j : Nat} (h : j < l.length) :
    (l ++ l2)[j]? = l[j]? := by
  rw [List.getElem?_append, if_pos h]

theorem appGet_elim {α : Type} {l : List α} {x a : α} {i : Nat}
    (h : (l ++ [x])[i]? = some a) :
    (i < l.length ∧ l[i]? = some a) ∨ (i = l.length ∧ a = x) := by
  by_cases hi : i < l.length
  · rw [appGet_left hi] at h
    exact Or.inl ⟨hi, h⟩
  · rw [List.getElem?_append_right (Nat.le_of_not_lt hi)] at h
    cases hk : i - l.length with
    | zero =>
      rw [hk] at h
      injection h with h2
      exact Or.inr ⟨Nat.le_antisymm (Nat.sub_eq_zero_iff_le.mp hk) (Nat.le_of_not_lt hi), h2.symm⟩
    | succ n =>
      rw [hk] at h
      simp at h

theorem entityLoc_inj {a b i j : Nat} (h : (⟨a, i⟩ : EntityLoc) = ⟨b, j⟩) :
    a = b ∧ i = j := by
  injection h with h1 h2
  exact ⟨h1, h2⟩

/-- C3: after `move_entity` from `(A, r)` to archetype `B ≠ A`, the moved
entity is indexed at `(B, dst_row)` where `dst_row` is B's entity count
before the move; if A still holds an entity at row `r` (the swapped
entity), its recorded row is patched to `r`; and the entity-index/storage
correspondence (the location round-trip, in both directions) is
preserved. -/
theorem moveEntity_location_roundtrip
    (w : Archetypes) (es : List (Nat × EntityLoc)) (src : EntityLoc) (dst : Nat)
    (nc : List (Nat × Nat)) (w' : Archetypes) (es' : List (Nat × EntityLoc))
    (row : Nat) (tr : List MoveEvent) (sa da : Archetype) (e : Nat)
    (hne : src.archetype ≠ dst)
    (h : moveEntity w es src dst nc = some (w', es', row, tr))
    (hcons : Consistent w es)
    (hiv : IndexValid w es)
    (hsa : w.archetypes[src.archetype]? = some sa)
    (hda : w.archetypes[dst]? = some da)
    (he : sa.entity_ids[src.row]? = some e) :
    lookupLoc es' e = some ⟨dst, row⟩ ∧
    row = da.entity_ids.length ∧
    (∀ sa' sw, w'.archetypes[src.archetype]? = some sa' →
        sa'.entity_ids[src.row]? = some sw →
        lookupLoc es' sw = some ⟨src.archetype, src.row⟩) ∧
    Consistent w' es' ∧ IndexValid w' es' := by
  obtain ⟨sa0, da0, srcCols, dstCols, rest, colEvents, eid,
          hsa0, hda0, hmerge, hid, hrow, hw, hes, htr⟩ := moveEntity_spec hne h
  rw [hsa0] at hsa
  rw [hda0] at hda
  have hsae : sa0 = sa := Option.some_inj.mp hsa
  have hdae : da0 = da := Option.some_inj.mp hda
  rw [← hsae] at he
  rw [← hdae]
  have heid : eid = e := by
    rw [hid] at he
    exact Option.some_inj.mp he
  rw [← heid]
  have hsrclt : src.archetype < w.archetypes.length := (List.getElem?_eq_some.mp hsa0).1
  have hdstlt : dst < w.archetypes.length := (List.getElem?_eq_some.mp hda0).1
  have hrowlt : src.row < sa0.entity_ids.length := (List.getElem?_eq_some.mp hid).1
  have hEloc : lookupLoc es eid = some ⟨src.archetype, src.row⟩ :=
    hcons src.archetype sa0 hsa0 src.row eid hid
  have hwA : w'.archetypes[src.archetype]? =
      some { sa0 with entity_ids := swapRemoveL sa0.entity_ids src.row, columns := srcCols } := by
    rw [hw]
    show ((w.archetypes.set src.archetype _).set dst _)[src.archetype]? = _
    rw [setGet_other (Ne.symm hne)]
    exact setGet_self hsrclt
  have hwB : w'.archetypes[dst]? =
      some { da0 with
             entity_ids := da0.entity_ids ++ [eid]
             columns := dstCols
             idsCap := vecPushCap da0.entity_ids.length da0.idsCap } := by
    rw [hw]
    exact setGet_self (by rw [List.length_set]; exact hdstlt)
  have hwO : ∀ (ai : Nat), ai ≠ src.archetype → ai ≠ dst →
      w'.archetypes[ai]? = w.archetypes[ai]? := by
    intro ai h1 h2
    rw [hw]
    show ((w.archetypes.set src.archetype _).set dst _)[ai]? = _
    rw [setGet_other (Ne.symm h2), setGet_other (Ne.symm h1)]
  cases hsw : (swapRemoveL sa0.entity_ids src.row)[src.row]? with
  | some sw =>
    rw [hsw] at hes
    dsimp only at hes
    have hrlt1 : src.row < sa0.entity_ids.length - 1 := by
      rw [swapRemoveL_getElem?] at hsw
      by_cases hlt : src.row < sa0.entity_ids.length - 1
      · exact hlt
      · rw [if_neg hlt] at hsw
        cases hsw
    have hswget : sa0.entity_ids[sa0.entity_ids.length - 1]? = some sw := by
      rw [swapRemoveL_getElem?, if_pos hrlt1, if_pos rfl] at hsw
      exact hsw
    have hSwLoc : lookupLoc es sw = some ⟨src.archetype, sa0.entity_ids.length - 1⟩ :=
      hcons src.archetype sa0 hsa0 _ sw hswget
    have hswne : sw ≠ eid := by
      intro hh
      subst hh
      rw [hEloc] at hSwLoc
      have h4 := (entityLoc_inj (Option.some_inj.mp hSwLoc)).2
      omega
    have hLookE : lookupLoc es' eid = some ⟨dst, row⟩ := by
      rw [hes, lookupLoc_setRow_other (Ne.symm hswne)]
      exact lookupLoc_setLoc_self hEloc
    have hLookSw : lookupLoc es' sw = some ⟨src.archetype, src.row⟩ := by
      rw [hes]
      have h1 : lookupLoc (setLoc es eid ⟨dst, row⟩) sw =
          some ⟨src.archetype, sa0.entity_ids.length - 1⟩ := by
        rw [lookupLoc_setLoc_other hswne]
        exact hSwLoc
      rw [lookupLoc_setRow_self h1]
    have hLookOther : ∀ x, x ≠ eid → x ≠ sw → lookupLoc es' x = lookupLoc es x := by
      intro x h1 h2
      rw [hes, lookupLoc_setRow_other h2, lookupLoc_setLoc_other h1]
    refine ⟨hLookE, hrow, ?_, ?_, ?_⟩
    · intro sa' sw' h1 h2
      rw [hwA] at h1
      obtain rfl := Option.some_inj.mp h1
      have h3 : (swapRemoveL sa0.entity_ids src.row)[src.row]? = some sw' := h2
      rw [hsw] at h3
      obtain rfl := Option.some_inj.mp h3
      exact hLookSw
    · -- Consistent w' es'
      intro ai a hget i id hidg
      by_cases hai1 : ai = dst
      · subst hai1
        rw [hwB] at hget
        obtain rfl := Option.some_inj.mp hget
        have hidg2 : (da0.entity_ids ++ [eid])[i]? = some id := hidg
        rcases appGet_elim hidg2 with ⟨hilt, hgOld⟩ | ⟨rfl, rfl⟩
        · have hOldLoc := hcons ai da0 hda0 i id hgOld
          have hne1 : id ≠ eid := by
            intro hh
            subst hh
            rw [hEloc] at hOldLoc
            exact hne (entityLoc_inj (Option.some_inj.mp hOldLoc)).1
          have hne2 : id ≠ sw := by
            intro hh
            subst hh
            rw [hSwLoc] at hOldLoc
            exact hne (entityLoc_inj (Option.some_inj.mp hOldLoc)).1
          rw [hLookOther id hne1 hne2]
          exact hOldLoc
        · rw [hrow] at hLookE
          exact hLookE
      · by_cases hai2 : ai = src.archetype
        · subst hai2
          rw [hwA] at hget
          obtain rfl := Option.some_inj.mp hget
          have hidg2 : (swapRemoveL sa0.entity_ids src.row)[i]? = some id := hidg
          rw [swapRemoveL_getElem?] at hidg2
          by_cases hilt : i < sa0.entity_ids.length - 1
          · rw [if_pos hilt] at hidg2
            by_cases hir : src.row = i
            · rw [if_pos hir] at hidg2
              rw [hswget] at hidg2
              obtain rfl := Option.some_inj.mp hidg2
              rw [← hir]
              exact hLookSw
            · rw [if_neg hir] at hidg2
              have hOldLoc := hcons src.archetype sa0 hsa0 i id hidg2
              have hne1 : id ≠ eid := by
                intro hh
                subst hh
                rw [hEloc] at hOldLoc
                exact hir (entityLoc_inj (Option.some_inj.mp hOldLoc)).2
              have hne2 : id ≠ sw := by
                intro hh
                subst hh
                rw [hSwLoc] at hOldLoc
                have h3 := (entityLoc_inj (Option.some_inj.mp hOldLoc)).2
                omega
              rw [hLookOther id hne1 hne2]
              exact hOldLoc
          · rw [if_neg hilt] at hidg2
            cases hidg2
        · rw [hwO ai hai2 hai1] at hget
          have hOldLoc := hcons ai a hget i id hidg
          have hne1 : id ≠ eid := by
            intro hh
            subst hh
            rw [hEloc] at hOldLoc
            exact hai2 (entityLoc_inj (Option.some_inj.mp hOldLoc)).1.symm
          have hne2 : id ≠ sw := by
            intro hh
            subst hh
            rw [hSwLoc] at hOldLoc
            exact hai2 (entityLoc_inj (Option.some_inj.mp hOldLoc)).1.symm
          rw [hLookOther id hne1 hne2]
          exact hOldLoc
    · -- IndexValid w' es'
      intro p' hp'
      rw [hes] at hp'
      unfold setRow setLoc at hp'
      obtain ⟨q, hq, rfl⟩ := List.mem_map.mp hp'
      obtain ⟨p, hp, rfl⟩ := List.mem_map.mp hq
      obtain ⟨pid, ploc⟩ := p
      obtain ⟨a0, ha0, hrow0⟩ := hiv (pid, ploc) hp
      dsimp only at ha0 hrow0 ⊢
      have hPloc : lookupLoc es pid = some ⟨ploc.archetype, ploc.row⟩ :=
        hcons ploc.archetype a0 ha0 ploc.row pid hrow0
      by_cases hpe : pid = eid
      · subst hpe
        rw [if_pos rfl]
        dsimp only
        rw [if_neg (Ne.symm hswne)]
        dsimp only
        refine ⟨_, hwB, ?_⟩
        show (da0.entity_ids ++ [pid])[row]? = some pid
        rw [hrow]
        exact List.getElem?_concat_length da0.entity_ids pid
      · rw [if_neg hpe]
        by_cases hps : pid = sw
        · subst hps
          rw [if_pos rfl]
          dsimp only
          rw [hPloc] at hSwLoc
          have harch := (entityLoc_inj (Option.some_inj.mp hSwLoc)).1
          rw [harch]
          refine ⟨_, hwA, ?_⟩
          show (swapRemoveL sa0.entity_ids src.row)[src.row]? = some pid
          rw [hsw]
        · rw [if_neg hps]
          by_cases hpa : ploc.archetype = src.archetype
          · have ha0e : a0 = sa0 := by
              rw [hpa] at ha0
              rw [ha0] at hsa0
              exact Option.some_inj.mp hsa0
            rw [ha0e] at hrow0
            have hprne : ploc.row ≠ src.row := by
              intro hh
              rw [hh] at hrow0
              rw [hid] at hrow0
              exact hpe (Option.some_inj.mp hrow0).symm
            have hprne2 : ploc.row ≠ sa0.entity_ids.length - 1 := by
              intro hh
              rw [hh] at hrow0
              rw [hswget] at hrow0
              exact hps (Option.some_inj.mp hrow0).symm
            have hprlt : ploc.row < sa0.entity_ids.length :=
              (List.getElem?_eq_some.mp hrow0).1
            refine ⟨_, hpa ▸ hwA, ?_⟩
            show (swapRemoveL sa0.entity_ids src.row)[ploc.row]? = some pid
            rw [swapRemoveL_getElem?, if_pos (by omega), if_neg (by omega)]
            exact hrow0
          · by_cases hpb : ploc.archetype = dst
            · have ha0e : a0 = da0 := by
                rw [hpb] at ha0
                rw [ha0] at hda0
                exact Option.some_inj.mp hda0
              rw [ha0e] at hrow0
              have hprlt : ploc.row < da0.entity_ids.length :=
                (List.getElem?_eq_some.mp hrow0).1
              refine ⟨_, hpb ▸ hwB, ?_⟩
              show (da0.entity_ids ++ [eid])[ploc.row]? = some pid
              rw [appGet_left hprlt]
              exact hrow0
            · refine ⟨a0, ?_, hrow0⟩
              rw [hwO ploc.archetype hpa hpb]
              exact ha0
  | none =>
    rw [hsw] at hes
    dsimp only at hes
    have hreq : ¬src.row < sa0.entity_ids.length - 1 := by
      intro hlt
      rw [swapRemoveL_getElem?, if_pos hlt, if_pos rfl] at hsw
      have h3 := List.getElem?_eq_none_iff.mp hsw
      omega
    have hLookE : lookupLoc es' eid = some ⟨dst, row⟩ := by
      rw [hes]
      exact lookupLoc_setLoc_self hEloc
    have hLookOther : ∀ x, x ≠ eid → lookupLoc es' x = lookupLoc es x := by
      intro x h1
      rw [hes, lookupLoc_setLoc_other h1]
    refine ⟨hLookE, hrow, ?_, ?_, ?_⟩
    · intro sa' sw' h1 h2
      rw [hwA] at h1
      obtain rfl := Option.some_inj.mp h1
      have h3 : (swapRemoveL sa0.entity_ids src.row)[src.row]? = some sw' := h2
      rw [hsw] at h3
      cases h3
    · intro ai a hget i id hidg
      by_cases hai1 : ai = dst
      · subst hai1
        rw [hwB] at hget
        obtain rfl := Option.some_inj.mp hget
        have hidg2 : (da0.entity_ids ++ [eid])[i]? = some id := hidg
        rcases appGet_elim hidg2 with ⟨hilt, hgOld⟩ | ⟨rfl, rfl⟩
        · have hOldLoc := hcons ai da0 hda0 i id hgOld
          have hne1 : id ≠ eid := by
            intro hh
            subst hh
            rw [hEloc] at hOldLoc
            exact hne (entityLoc_inj (Option.some_inj.mp hOldLoc)).1
          rw [hLookOther id hne1]
          exact hOldLoc
        · rw [hrow] at hLookE
          exact hLookE
      · by_cases hai2 : ai = src.archetype
        · subst hai2
          rw [hwA] at hget
          obtain rfl := Option.some_inj.mp hget
          have hidg2 : (swapRemoveL sa0.entity_ids src.row)[i]? = some id := hidg
          rw [swapRemoveL_getElem?] at hidg2
          by_cases hilt : i < sa0.entity_ids.length - 1
          · rw [if_pos hilt] at hidg2
            have hir : src.row ≠ i := by omega
            rw [if_neg hir] at hidg2
            have hOldLoc := hcons src.archetype sa0 hsa0 i id hidg2
            have hne1 : id ≠ eid := by
              intro hh
              subst hh
              rw [hEloc] at hOldLoc
              exact hir (entityLoc_inj (Option.some_inj.mp hOldLoc)).2
            rw [hLookOther id hne1]
            exact hOldLoc
          · rw [if_neg hilt] at hidg2
            cases hidg2
        · rw [hwO ai hai2 hai1] at hget
          have hOldLoc := hcons ai a hget i id hidg
          have hne1 : id ≠ eid := by
            intro hh
            subst hh
            rw [hEloc] at hOldLoc
            exact hai2 (entityLoc_inj (Option.some_inj.mp hOldLoc)).1.symm
          rw [hLookOther id hne1]
          exact hOldLoc
    · intro p' hp'
      rw [hes] at hp'
      unfold setLoc at hp'
      obtain ⟨p, hp, rfl⟩ := List.mem_map.mp hp'
      obtain ⟨pid, ploc⟩ := p
      obtain ⟨a0, ha0, hrow0⟩ := hiv (pid, ploc) hp
      dsimp only at ha0 hrow0 ⊢
      have hPloc : lookupLoc es pid = some ⟨ploc.archetype, ploc.row⟩ :=
        hcons ploc.archetype a0 ha0 ploc.row pid hrow0
      by_cases hpe : pid = eid
      · subst hpe
        rw [if_pos rfl]
        dsimp only
        refine ⟨_, hwB, ?_⟩
        show (da0.entity_ids ++ [pid])[row]? = some pid
        rw [hrow]
        exact List.getElem?_concat_length da0.entity_ids pid
      · rw [if_neg hpe]
        by_cases hpa : ploc.archetype = src.archetype
        · have ha0e : a0 = sa0 := by
            rw [hpa] at ha0
            rw [ha0] at hsa0
            exact Option.some_inj.mp hsa0
          rw [ha0e] at hrow0
          have hprne : ploc.row ≠ src.row := by
            intro hh
            rw [hh] at hrow0
            rw [hid] at hrow0
            exact hpe (Option.some_inj.mp hrow0).symm
          have hprlt : ploc.row < sa0.entity_ids.length :=
            (List.getElem?_eq_some.mp hrow0).1
          refine ⟨_, hpa ▸ hwA, ?_⟩
          show (swapRemoveL sa0.entity_ids src.row)[ploc.row]? = some pid
          rw [swapRemoveL_getElem?, if_pos (by omega), if_neg (by omega)]
          exact hrow0
        · by_cases hpb : ploc.archetype = dst
          · have ha0e : a0 = da0 := by
              rw [hpb] at ha0
              rw [ha0] at hda0
              exact Option.some_inj.mp hda0
            rw [ha0e] at hrow0
            have hprlt : ploc.row < da0.entity_ids.length :=
              (List.getElem?_eq_some.mp hrow0).1
            refine ⟨_, hpb ▸ hwB, ?_⟩
            show (da0.entity_ids ++ [eid])[ploc.row]? = some pid
            rw [appGet_left hprlt]
            exact hrow0
          · refine ⟨a0, ?_, hrow0⟩
            rw [hwO ploc.archetype hpa hpb]
            exact ha0

theorem consistentB_sound {w : Archetypes} {es : List (Nat × EntityLoc)}
    (h : consistentB w es = true) : Consistent w es := by
  intro ai a hget i id hid
  have hailt : ai < w.archetypes.length := (List.getElem?_eq_some.mp hget).1
  have hilt : i < a.entity_ids.length := (List.getElem?_eq_some.mp hid).1
  unfold consistentB at h
  rw [List.all_eq_true] at h
  have h1 := h ai (List.mem_range.mpr hailt)
  rw [← List.get?_eq_getElem?] at hget
  rw [hget] at h1
  dsimp only at h1
  rw [List.all_eq_true] at h1
  have h2 := h1 i (List.mem_range.mpr hilt)
  rw [← List.get?_eq_getElem?] at hid
  rw [hid] at h2
  dsimp only at h2
  exact eq_of_beq h2

/-- Witness for C2 at the swap-patch scenario move (entity 10 from
archetype 1 row 0 into the empty archetype 0). -/
theorem moveEntity_order_witness :
    (⟨1, 0⟩ : EntityLoc).archetype ≠ 0 ∧
    ∃ r, moveEntity wS esS ⟨1, 0⟩ 0 [] = some r ∧
      (r.2.2.2 = r.2.2.2.filter (fun e => !e.isNotify)
          ++ r.2.2.2.filter (fun e => e.isNotify) ∧
       r.2.2.2.filter (fun e => e.isNotify) =
        (if archA.entity_ids.length = 1 then
          archA.refresh_listeners.map (fun s => .notify s .empty 1)
        else [])
        ++ (if dstArchReallocated archB then
              archB.refresh_listeners.map (fun s => .notify s .refreshPtrs 0)
            else [])
        ++ (if archB.entity_ids = [] then
              archB.refresh_listeners.map (fun s => .notify s .nonempty 0)
            else [])) := by
  refine ⟨by decide, _, rfl, ?_⟩
  exact moveEntity_order wS esS ⟨1, 0⟩ 0 [] _ _ _ _ archA archB (by decide) rfl rfl rfl

/-- Witness for C3: moving entity 10 out of archetype 1 row 0; entity 11 is
swapped into row 0 and its index entry patched; both consistency directions
hold afterwards. -/
theorem moveEntity_location_roundtrip_witness :
    ∃ r, moveEntity wS esS ⟨1, 0⟩ 0 [] = some r ∧
      lookupLoc r.2.1 10 = some ⟨0, 0⟩ ∧
      (∀ sa' sw, r.1.archetypes[1]? = some sa' →
          sa'.entity_ids[0]? = some sw → lookupLoc r.2.1 sw = some ⟨1, 0⟩) ∧
      Consistent r.1 r.2.1 ∧ IndexValid r.1 r.2.1 := by
  have hcons : Consistent wS esS := consistentB_sound rfl
  have hiv : IndexValid wS esS := by
    intro p hp
    have hp2 : p = (10, ⟨1, 0⟩) ∨ p = (11, ⟨1, 1⟩) := by
      simp only [wS, esS, List.mem_cons, List.not_mem_nil, or_false] at hp
      exact hp
    rcases hp2 with rfl | rfl
    · exact ⟨archA, rfl, rfl⟩
    · exact ⟨archA, rfl, rfl⟩
  have h := moveEntity_location_roundtrip wS esS ⟨1, 0⟩ 0 [] _ _ _ _ archA archB 10
    (by decide) rfl hcons hiv rfl rfl rfl
  exact ⟨_, rfl, h.1, h.2.2.1, h.2.2.2.1, h.2.2.2.2⟩

theorem emptyInv_general {w w1 : Archetypes}
    (hinv : EmptyInv w)
    (hget : ∀ a, w.archetypes[0]? = some a → a.columns = [] →
        ∃ a', w1.archetypes[0]? = some a' ∧ a'.columns = [] ∧ a'.index = a.index)
    (hbc : lookupBC w1.by_components [] = some 0) :
    EmptyInv w1 := by
  obtain ⟨⟨a, ha, hcols, hidx⟩, hb⟩ := hinv
  obtain ⟨a', ha', hc', hi'⟩ := hget a ha hcols
  exact ⟨⟨a', ha', hc', by rw [hi']; exact hidx⟩, hbc⟩

/-- C10: the archetype with no components exists at index 0 from the
construction of `Archetypes`, with the empty component sequence mapped to
it in `by_components`; neither graph traversal nor `move_entity` removes
or replaces it, so index 0 always yields the empty archetype. -/
theorem empty_archetype_stable :
    EmptyInv Archetypes.new ∧
    (∀ (w : Archetypes) (cs : Components) (sys : List Nat) (m : Nat → List Nat → Bool)
       (src c : Nat) (w1 : Archetypes) (d : Nat),
       EmptyInv w → traverseInsert w cs sys m src c = .ok (w1, d) → EmptyInv w1) ∧
    (∀ (w : Archetypes) (cs : Components) (sys : List Nat) (m : Nat → List Nat → Bool)
       (src c : Nat) (w1 : Archetypes) (d : Nat),
       EmptyInv w → traverseRemove w cs sys m src c = .ok (w1, d) → EmptyInv w1) ∧
    (∀ (w : Archetypes) (es : List (Nat × EntityLoc)) (src : EntityLoc) (dst : Nat)
       (nc : List (Nat × Nat)) (w1 : Archetypes) (es1 : List (Nat × EntityLoc))
       (row : Nat) (tr : List MoveEvent),
       EmptyInv w → moveEntity w es src dst nc = some (w1, es1, row, tr) → EmptyInv w1) := by
  refine ⟨⟨⟨Archetype.emptyArch, rfl, rfl, rfl⟩, rfl⟩, ?_, ?_, ?_⟩
  · intro w cs sys m src c w1 d hinv h
    unfold traverseInsert at h
    dsimp only at h
    split at h
    · cases h
    next sa hsaq =>
      have hsa : w.archetypes[src]? = some sa := by
        rw [← List.get?_eq_getElem?]
        exact hsaq
      split at h
      next dd hdd =>
        rw [Except.ok.injEq, Prod.mk.injEq] at h
        obtain ⟨rfl, -⟩ := h
        exact hinv
      next hdd =>
        split at h
        next i0 hok =>
          rw [Except.ok.injEq, Prod.mk.injEq] at h
          obtain ⟨rfl, -⟩ := h
          exact hinv
        next idx herr =>
          split at h
          next ex hex =>
            rw [Except.ok.injEq, Prod.mk.injEq] at h
            obtain ⟨rfl, -⟩ := h
            refine emptyInv_general hinv ?_ hinv.2
            intro a ha hc
            by_cases hs0 : src = 0
            · subst hs0
              rw [ha] at hsa
              obtain rfl := Option.some_inj.mp hsa
              exact ⟨_, setGet_self (List.getElem?_eq_some.mp ha).1, hc, rfl⟩
            · exact ⟨a, by rw [setGet_other hs0]; exact ha, hc, rfl⟩
          next hex =>
            split at h
            · cases h
            next hlen =>
              rw [Except.ok.injEq, Prod.mk.injEq] at h
              obtain ⟨rfl, -⟩ := h
              refine emptyInv_general hinv ?_ (lookupBC_append_of_some hinv.2)
              intro a ha hc
              have h0lt : (0 : Nat) < w.archetypes.length := (List.getElem?_eq_some.mp ha).1
              by_cases hs0 : src = 0
              · subst hs0
                rw [ha] at hsa
                obtain rfl := Option.some_inj.mp hsa
                refine ⟨{ a with
                    insert_components := insertA a.insert_components c w.archetypes.length },
                  ?_, hc, rfl⟩
                rw [setAppendGet_left h0lt]
                exact setGet_self h0lt
              · refine ⟨a, ?_, hc, rfl⟩
                rw [setAppendGet_left h0lt, setGet_other hs0]
                exact ha
  · intro w cs sys m src c w1 d hinv h
    unfold traverseRemove at h
    dsimp only at h
    split at h
    · cases h
    next sa hsaq =>
      have hsa : w.archetypes[src]? = some sa := by
        rw [← List.get?_eq_getElem?]
        exact hsaq
      split at h
      next dd hdd =>
        rw [Except.ok.injEq, Prod.mk.injEq] at h
        obtain ⟨rfl, -⟩ := h
        exact hinv
      next hdd =>
        split at h
        next idx herr =>
          rw [Except.ok.injEq, Prod.mk.injEq] at h
          obtain ⟨rfl, -⟩ := h
          exact hinv
        next i0 hok =>
          split at h
          next ex hex =>
            rw [Except.ok.injEq, Prod.mk.injEq] at h
            obtain ⟨rfl, -⟩ := h
            refine emptyInv_general hinv ?_ hinv.2
            intro a ha hc
            by_cases hs0 : src = 0
            · subst hs0
              rw [ha] at hsa
              obtain rfl := Option.some_inj.mp hsa
              exact ⟨_, setGet_self (List.getElem?_eq_some.mp ha).1, hc, rfl⟩
            · exact ⟨a, by rw [setGet_other hs0]; exact ha, hc, rfl⟩
          next hex =>
            split at h
            · cases h
            next hlen =>
              rw [Except.ok.injEq, Prod.mk.injEq] at h
              obtain ⟨rfl, -⟩ := h
              refine emptyInv_general hinv ?_ (lookupBC_append_of_some hinv.2)
              intro a ha hc
              have h0lt : (0 : Nat) < w.archetypes.length := (List.getElem?_eq_some.mp ha).1
              by_cases hs0 : src = 0
              · subst hs0
                rw [ha] at hsa
                obtain rfl := Option.some_inj.mp hsa
                refine ⟨{ a with
                    remove_components := insertA a.remove_components c w.archetypes.length },
                  ?_, hc, rfl⟩
                rw [setAppendGet_left h0lt]
                exact setGet_self h0lt
              · refine ⟨a, ?_, hc, rfl⟩
                rw [setAppendGet_left h0lt, setGet_other hs0]
                exact ha
  · intro w es src dst nc w1 es1 row tr hinv h
    by_cases hne : src.archetype = dst
    · rw [moveEntity_noop w es src dst nc hne] at h
      rw [Option.some_inj, Prod.mk.injEq] at h
      obtain ⟨rfl, -⟩ := h
      exact hinv
    · obtain ⟨sa0, da0, srcCols, dstCols, rest, colEvents, eid,
              hsa0, hda0, hmerge, hid, hrow, hw, hes, htr⟩ := moveEntity_spec hne h
      have hcolprops := mergeLoop_props hmerge
      refine emptyInv_general hinv ?_ ?_
      · intro a ha hc
        by_cases h0d : dst = 0
        · subst h0d
          rw [ha] at hda0
          have hae : a = da0 := Option.some_inj.mp hda0
          refine ⟨{ da0 with
              entity_ids := da0.entity_ids ++ [eid]
              columns := dstCols
              idsCap := vecPushCap da0.entity_ids.length da0.idsCap }, ?_, ?_, by rw [hae]⟩
          · rw [hw]
            exact setGet_self (by rw [List.length_set]; exact (List.getElem?_eq_some.mp ha).1)
          · show dstCols = []
            have h2 := hcolprops.2.1
            rw [← hae, hc] at h2
            exact List.map_eq_nil_iff.mp h2
        · by_cases h0s : src.archetype = 0
          · have hsa0b : w.archetypes[0]? = some sa0 := by
              rw [← h0s]
              exact hsa0
            rw [ha] at hsa0b
            have hae : a = sa0 := Option.some_inj.mp hsa0b
            refine ⟨{ sa0 with
              entity_ids := swapRemoveL sa0.entity_ids src.row
              columns := srcCols }, ?_, ?_, by rw [hae]⟩
            · rw [hw]
              rw [setGet_other h0d, h0s]
              exact setGet_self (by rw [← h0s]; exact (List.getElem?_eq_some.mp hsa0).1)
            · show srcCols = []
              have h2 := hcolprops.1
              rw [← hae, hc] at h2
              exact List.map_eq_nil_iff.mp h2
          · refine ⟨a, ?_, hc, rfl⟩
            rw [hw]
            rw [setGet_other h0d, setGet_other h0s]
            exact ha
      · rw [hw]
        exact hinv.2

/-- Witness for C10: the invariant holds for the fresh world, after a
creating insert traversal, and after a concrete move. -/
theorem empty_archetype_stable_witness :
    EmptyInv Archetypes.new ∧
    (∃ r, traverseInsert Archetypes.new cs1 [] (fun _ _ => false) 0 0 = .ok r ∧
      EmptyInv r.1) ∧
    (∃ r, moveEntity wS esS ⟨1, 0⟩ 0 [] = some r ∧ EmptyInv r.1) := by
  refine ⟨empty_archetype_stable.1, ⟨_, rfl, ?_⟩, ⟨_, rfl, ?_⟩⟩
  · exact empty_archetype_stable.2.1 Archetypes.new cs1 [] (fun _ _ => false) 0 0 _ _
      ⟨⟨Archetype.emptyArch, rfl, rfl, rfl⟩, rfl⟩ rfl
  · exact empty_archetype_stable.2.2.2 wS esS ⟨1, 0⟩ 0 [] _ _ _ _
      ⟨⟨archB, rfl, rfl, rfl⟩, rfl⟩ rfl

/-- C1 (code-bug evidence): at this input the code's reallocation flag —
computed from the FIRST destination column only (`archetype.rs` lines
248–252) — is `false`, although the second destination column is at
capacity (the specification's any-column flag is `true`); the move then
grows that column's capacity from 1 to 2, a reallocation, yet the trace
contains no RefreshPointers notification even though the destination has a
refresh listener. -/
theorem c1_first_column_flag_misses_reallocation :
    dstArchReallocated dstZ = false ∧
    specWillReallocateDst dstZ = true ∧
    colCapsAt wZ 1 = [usizeMax, 1] ∧
    dstZ.refresh_listeners = [9] ∧
    ∃ r, moveEntity wZ esZ ⟨0, 0⟩ 1 [(0, 9), (1, 9)] = some r ∧
      colCapsAt r.1 1 = [usizeMax, 2] ∧
      r.2.2.2.all (fun ev => !ev.isRefreshNotify) = true :=
  ⟨rfl, rfl, rfl, rfl, _, rfl, rfl, rfl⟩
